import Mathlib

/-!
Verification of the crawl-orchestration and search engine of the
Web-Crawler repository, against its natural-language specification.

The relevant code lives in `backend/app/services/crawler_service.py` and
`backend/app/services/search_service.py`; the persistent store is SQLite,
accessed through plain SQL statements.  We embed the database rows as Lean
structures (one structure per table, one list per table in `DBState`) and
each SQL statement or Python function as a pure function on that state.
Machine integers of SQLite are unbounded in practice here (row ids, counts),
so `Nat`/`Int` model them directly; REAL columns (`response_time`,
`load_time`) are carried as `Rat` — no claim computes with them.
-/

namespace WebCrawler

/-- A row of the `crawl_queue` table: `id` (primary key), `ip_address`
(unique), and a text `status` — the source writes the literals
`"pending"`, `"in-progress"`, `"completed"`, `"failed"`. -/
structure QueueEntry where
  qid : Nat
  ip_address : String
  status : String
deriving DecidableEq, Repr

/-- A row of the `hosts` table.  `domain` is never written by the crawler
(stays NULL); the failure path of `process_ip` re-inserts the row with only
`ip_address`, `last_crawled` and `is_active`, so every other column is
`Option`.  `last_crawled` is set by every insert (`CURRENT_TIMESTAMP`),
modelled as a `Nat` clock value. -/
structure Host where
  hid : Nat
  ip_address : String
  domain : Option String
  title : Option String
  description : Option String
  status_code : Option Int
  response_time : Option Rat
  server_info : Option String
  content_type : Option String
  is_active : Bool
  last_crawled : Nat
deriving DecidableEq, Repr

/-- A row of the `pages` table. -/
structure Page where
  pid : Nat
  host_id : Nat
  url : String
  content_hash : Int
  title : Option String
  meta_description : Option String
  http_status : Int
  load_time : Rat
  content_size : Nat
  last_crawled : Nat
deriving DecidableEq, Repr

/-- A row of the `keywords` table; `total_occurrences` starts at the schema
default 0 when a keyword row is first created by `INSERT OR IGNORE`. -/
structure Keyword where
  kid : Nat
  keyword : String
  total_occurrences : Nat
deriving DecidableEq, Repr

/-- A row of the `page_keywords` association table. -/
structure PageKeyword where
  page_id : Nat
  keyword_id : Nat
  frequency : Nat
deriving DecidableEq, Repr

/-- The store the two services read and write: one list per table, plus the
`AUTOINCREMENT` counters supplying fresh row ids. -/
structure DBState where
  hosts : List Host
  pages : List Page
  keywords : List Keyword
  page_keywords : List PageKeyword
  crawl_queue : List QueueEntry
  next_host_id : Nat
  next_page_id : Nat
  next_keyword_id : Nat
deriving DecidableEq, Repr

/-! ### Task queue: `get_next_ip_batch` (the spec's `claim_batch`)

`crawler_service.py` lines 93-112: one SQL statement
`UPDATE crawl_queue SET status = 'in-progress' WHERE id IN
(SELECT id FROM crawl_queue WHERE status = 'pending' LIMIT ?) RETURNING
ip_address`, committed as one transaction.  The subquery picks up to
`batch_size` pending rows in table order; the update flips exactly those
rows and returns their addresses. -/

/-- The subquery `SELECT id FROM crawl_queue WHERE status = 'pending'
LIMIT batch_size` — the rows it designates, in table order. -/
def batchSel (q : List QueueEntry) (batch_size : Nat) : List QueueEntry :=
  (q.filter (fun e => e.status == "pending")).take batch_size

/-- One call of `get_next_ip_batch`: the claimed addresses and the queue
table after the transaction. -/
def get_next_ip_batch (q : List QueueEntry) (batch_size : Nat) :
    List String × List QueueEntry :=
  ((batchSel q batch_size).map (fun e => e.ip_address),
   q.map (fun e =>
     if ((batchSel q batch_size).map (fun x => x.qid)).contains e.qid
     then { e with status := "in-progress" } else e))

/-- The status the queue records for address `a` (`SELECT status FROM
crawl_queue WHERE ip_address = a`, first row). -/
def statusOf (q : List QueueEntry) (a : String) : Option String :=
  (q.find? (fun e => e.ip_address == a)).map (fun e => e.status)

/-! ### Telemetry ring buffer

`crawler_service.py` line 41: `self.recent_events: deque[dict] = deque(maxlen=200)`.
The only mutation the source ever performs on it is `.append`
(in `crawl_ip` and `process_ip`), so its behaviour is the fold of appends. -/

/-- One event dict appended to `recent_events`; `etype` is one of
`"scan_start"`, `"detected"`, `"failed"`, `"error"`, `"stored"`, and the
optional fields are the payload the source attaches for some types. -/
structure RecentEvent where
  etype : String
  ip : String
  status : Option Int
  server : Option String
  error : Option String
  time : Nat
deriving DecidableEq, Repr

/-- `deque.append` under `maxlen`: the new element goes to the right and,
when the capacity is exceeded, elements are discarded from the left. -/
def dequeAppend (maxlen : Nat) (buf : List RecentEvent) (e : RecentEvent) :
    List RecentEvent :=
  let b := buf ++ [e]
  if maxlen < b.length then b.drop (b.length - maxlen) else b

/-- The `recent_events` buffer after a run that appended `evs` in order,
starting from the empty deque built in `__init__` with `maxlen=200`. -/
def recentEventsAfter (evs : List RecentEvent) : List RecentEvent :=
  evs.foldl (dequeAppend 200) []

end WebCrawler

namespace WebCrawler

/-! ### Keyword extraction

`crawler_service.py` lines 114-155.  `extract_keywords` runs
`re.findall(r'\b[a-zA-Z]{3,}\b', text.lower())`, counts the tokens with
`collections.Counter`, filters the stop words and short words, sorts by
count descending and takes the top `max_keywords`.

The regex is embedded character-exactly (ASCII view): a match is a maximal
run of alphabetic characters of length at least 3 whose neighbouring
characters, when present, are not word characters (`\b` fails between two
word characters, and digits and `_` are word characters). -/

/-- Configuration constants of `config.py` consulted by the services. -/
def min_keyword_length : Nat := 3

def max_keywords_per_page : Nat := 20

/-- A regex word character (`\w`, ASCII view): letter, digit or underscore. -/
def isWordChar (c : Char) : Bool := c.isAlpha || c.isDigit || c == '_'

/-- Scanner for `re.findall(r'\b[a-zA-Z]{3,}\b', ...)`: `startOk` records
whether the character just before the current alphabetic run (held reversed
in `cur`) was absent or a non-word character, i.e. whether `\b` holds at
the run's start. -/
def scanFindall (startOk : Bool) (cur : List Char) : List Char → List String
  | [] => if 3 ≤ cur.length && startOk then [String.mk cur.reverse] else []
  | c :: cs =>
    if c.isAlpha then scanFindall startOk (c :: cur) cs
    else if 3 ≤ cur.length && startOk && !(isWordChar c) then
      String.mk cur.reverse :: scanFindall (!(isWordChar c)) [] cs
    else scanFindall (!(isWordChar c)) [] cs

/-- `re.findall(r'\b[a-zA-Z]{3,}\b', text.lower())` — the token list the
source computes. -/
def words (text : String) : List String :=
  scanFindall true [] (text.data.map Char.toLower)

/-- Modelled from the claim's words, for comparison with `words` only:
"takes as tokens exactly the maximal runs of 3 or more alphabetic
characters" of the lower-cased text — no word-boundary condition. -/
def claimScan (cur : List Char) : List Char → List String
  | [] => if 3 ≤ cur.length then [String.mk cur.reverse] else []
  | c :: cs =>
    if c.isAlpha then claimScan (c :: cur) cs
    else if 3 ≤ cur.length then String.mk cur.reverse :: claimScan [] cs
    else claimScan [] cs

/-- The claim's tokenization of the lower-cased text (see `claimScan`). -/
def claimTokens (text : String) : List String :=
  claimScan [] (text.data.map Char.toLower)

/-- One step of `collections.Counter`: bump the count of `w`, creating the
key (in insertion order) when absent. -/
def counterAdd (acc : List (String × Nat)) (w : String) : List (String × Nat) :=
  if acc.any (fun p => p.1 == w) then
    acc.map (fun p => if p.1 == w then (p.1, p.2 + 1) else p)
  else acc ++ [(w, 1)]

/-- `collections.Counter(ws)` as an association list: one (key, count)
pair per distinct token, keys in first-occurrence order. -/
def counter (ws : List String) : List (String × Nat) := ws.foldl counterAdd []

/-- The stop-word set of `extract_keywords` (lines 121-148), verbatim. -/
def stop_words : List String := [
  "the", "and", "for", "with", "this", "that", "are", "from", "was", "were",
  "you", "your", "has", "have", "had", "will", "can", "could", "would",
  "should", "may", "might", "must", "shall", "do", "does", "did", "done",
  "is", "am", "be", "been", "being", "get", "got", "gotten", "go", "went",
  "gone", "come", "came", "see", "saw", "seen", "know", "knew", "known",
  "think", "thought", "take", "took", "taken", "make", "made", "give",
  "gave", "given", "find", "found", "look", "looked", "use", "used",
  "work", "worked", "call", "called", "try", "tried", "ask", "asked",
  "need", "needed", "feel", "felt", "become", "became", "leave", "left",
  "put", "keep", "kept", "let", "begin", "began", "begun", "seem",
  "seemed", "help", "helped", "show", "showed", "shown", "hear", "heard",
  "play", "played", "run", "ran", "move", "moved", "live", "lived",
  "believe", "believed", "bring", "brought", "happen", "happened",
  "write", "wrote", "written", "sit", "sat", "stand", "stood", "lose",
  "lost", "pay", "paid", "meet", "met", "include", "included", "continue",
  "continued", "set", "follow", "followed", "stop", "stopped", "create",
  "created", "speak", "spoke", "spoken", "read", "allow", "allowed",
  "add", "added", "spend", "spent", "grow", "grew", "grown", "open",
  "opened", "walk", "walked", "win", "won", "offer", "offered", "remember",
  "remembered", "love", "loved", "consider", "considered", "appear",
  "appeared", "buy", "bought", "wait", "waited", "serve", "served",
  "die", "died", "send", "sent", "expect", "expected", "build", "built",
  "stay", "stayed", "fall", "fell", "fallen", "cut", "reach", "reached",
  "kill", "killed", "remain", "remained", "suggest", "suggested", "raise",
  "raised", "pass", "passed", "sell", "sold", "require", "required",
  "report", "reported", "decide", "decided", "pull", "pulled"]

/-- Insertion step of the sort used to embed `sorted(...)` / `ORDER BY`
(the sources only rely on the ordering, ties being unspecified). -/
def insertBy {α : Type} (le : α → α → Bool) (a : α) : List α → List α
  | [] => [a]
  | b :: l => if le a b then a :: b :: l else b :: insertBy le a l

/-- Sort by the Boolean relation `le` (insertion sort). -/
def sortBy {α : Type} (le : α → α → Bool) : List α → List α
  | [] => []
  | a :: l => insertBy le a (sortBy le l)

/-- The number of occurrences of token `w` in the token list `ws` — the
count `collections.Counter` associates with a key. -/
def countTok (ws : List String) (w : String) : Nat :=
  (ws.filter (fun x => x == w)).length

/-- The count an association list (as built by `counter`) holds for key
`w`, 0 when the key is absent. -/
def cval (acc : List (String × Nat)) (w : String) : Nat :=
  ((acc.find? (fun p => p.1 == w)).map Prod.snd).getD 0

/-- `extract_keywords(text, max_keywords)` of the source: count the regex
tokens of the lower-cased text, drop stop words and words shorter than
`min_keyword_length`, sort by count descending, take the top
`max_keywords` (keyword, frequency) pairs. -/
def extract_keywords (text : String) (max_keywords : Nat) : List (String × Nat) :=
  let word_freq := counter (words text)
  let filtered_freq := word_freq.filter
    (fun p => !(stop_words.contains p.1) && decide (min_keyword_length ≤ p.1.length))
  (sortBy (fun a b => Nat.ble b.2 a.2) filtered_freq).take max_keywords

/-! ### Queue status updates of the Writer (`process_ip`)

`crawler_service.py` lines 274-278 and 294-298.  These UPDATE statements
are the implementation of the spec's `mark_completed` / `mark_failed`
queue operations. -/

/-- `UPDATE crawl_queue SET status = 'completed' WHERE ip_address = ?`
(the spec's `mark_completed`). -/
def mark_completed (q : List QueueEntry) (ip : String) : List QueueEntry :=
  q.map (fun e => if e.ip_address == ip then { e with status := "completed" } else e)

/-- `UPDATE crawl_queue SET status = 'failed' WHERE ip_address = ?`
(the spec's `mark_failed`). -/
def mark_failed (q : List QueueEntry) (ip : String) : List QueueEntry :=
  q.map (fun e => if e.ip_address == ip then { e with status := "failed" } else e)

/-! ### Candidate generator

`crawler_service.py` lines 45-70.  The filter is CPython's
`IPv4Address.is_global` — embedded from the `ipaddress` module the source
calls: `is_global` is "not in 100.64.0.0/10 and not `is_private`", and
`is_private` is membership in the fixed list of special-purpose networks
below.  Addresses are the integers `0 ≤ n < 2^32`. -/

/-- The integer of the dotted IPv4 address `a.b.c.d`. -/
def ip4 (a b c d : Nat) : Nat := ((a * 256 + b) * 256 + c) * 256 + d

/-- Membership of `addr` in the CIDR block `base/prefixLen`. -/
def inNet (addr base prefixLen : Nat) : Bool :=
  addr / 2 ^ (32 - prefixLen) == base / 2 ^ (32 - prefixLen)

/-- CPython `ipaddress._IPv4Constants._private_networks`, the list
`IPv4Address.is_private` tests against. -/
def private_networks : List (Nat × Nat) := [
  (ip4 0 0 0 0, 8), (ip4 10 0 0 0, 8), (ip4 127 0 0 0, 8),
  (ip4 169 254 0 0, 16), (ip4 172 16 0 0, 12), (ip4 192 0 0 0, 29),
  (ip4 192 0 0 170, 31), (ip4 192 0 2 0, 24), (ip4 192 168 0 0, 16),
  (ip4 198 18 0 0, 15), (ip4 198 51 100 0, 24), (ip4 203 0 113 0, 24),
  (ip4 240 0 0 0, 4), (ip4 255 255 255 255, 32)]

/-- CPython `IPv4Address.is_private`. -/
def is_private (addr : Nat) : Bool :=
  private_networks.any (fun p => inNet addr p.1 p.2)

/-- CPython `IPv4Address.is_global`: not in the shared-address block
100.64.0.0/10 and not private.  Note: it does NOT exclude the multicast
block 224.0.0.0/4. -/
def is_global (addr : Nat) : Bool :=
  !(inNet addr (ip4 100 64 0 0) 10) && !(is_private addr)

/-- CPython `IPv4Address.is_multicast`: membership in 224.0.0.0/4. -/
def is_multicast (addr : Nat) : Bool := inNet addr (ip4 224 0 0 0) 4

/-- `candidate.packed[-1]` — the last octet of the address. -/
def lastOctet (addr : Nat) : Nat := addr % 256

/-- `str(IPv4Address(n))` — dotted-quad rendering. -/
def ipString (addr : Nat) : String :=
  toString (addr / 2 ^ 24 % 256) ++ "." ++ toString (addr / 2 ^ 16 % 256)
    ++ "." ++ toString (addr / 2 ^ 8 % 256) ++ "." ++ toString (addr % 256)

/-- Python `results.add(str(candidate))` on a set, modelled as a duplicate-
free list in insertion order (the claims do not depend on set order). -/
def setAdd (results : List String) (s : String) : List String :=
  if results.contains s then results else results ++ [s]

/-- The rejection-sampling loop of `generate_random_ips`: `draws i` is the
value `random.randint(net.network_address, net.broadcast_address)` returns
on attempt `i`, and `fuel` the remaining attempt budget. -/
def genLoop (count : Nat) (draws : Nat → Nat) :
    Nat → Nat → List String → List String
  | 0, _, results => results
  | fuel + 1, attempt, results =>
    if results.length < count then
      if !(is_global (draws attempt)) then
        genLoop count draws fuel (attempt + 1) results
      else if lastOctet (draws attempt) == 0 || lastOctet (draws attempt) == 255 then
        genLoop count draws fuel (attempt + 1) results
      else
        genLoop count draws fuel (attempt + 1) (setAdd results (ipString (draws attempt)))
    else results

/-- `generate_random_ips(network, count)` with the random stream `draws`
standing for `random.randint` over the network's integer range; the
attempt budget is `count * 20` (`max_attempts`). -/
def generate_random_ips (count : Nat) (draws : Nat → Nat) : List String :=
  genLoop count draws (count * 20) 0 []

/-! ### Search service

`search_service.py` lines 21-105 (`search`) and 117-158
(`search_by_domain`).  The SQL queries are embedded table by table: the
join is the filtered product of the four tables (the ON/WHERE conditions
at their natural levels), `GROUP BY h.id` yields one output row per active
host owning at least one join tuple (host ids are unique, being the
primary key, so groups are enumerated in table order), and `ORDER BY` /
`LIMIT` / `OFFSET` are the sort and the slice. -/

/-- Python `query.split()` — split on whitespace runs, no empty pieces
(`cur` holds the current token reversed). -/
def splitWs (cur : List Char) : List Char → List String
  | [] => if cur.isEmpty then [] else [String.mk cur.reverse]
  | c :: cs =>
    if c.isWhitespace then
      if cur.isEmpty then splitWs [] cs
      else String.mk cur.reverse :: splitWs [] cs
    else splitWs (c :: cur) cs

/-- The query tokenization of `search` (lines 27-28):
`[term.lower().strip() for term in query.split() if len(term.strip()) >=
min_keyword_length]` — tokens of `split()` carry no whitespace, so
`strip()` is the identity on them. -/
def parse_terms (query : String) : List String :=
  (splitWs [] query.data).filterMap (fun t =>
    if min_keyword_length ≤ t.length
    then some (String.mk (t.data.map Char.toLower)) else none)

/-- One tuple of the `hosts × pages × page_keywords × keywords` join. -/
structure JoinRow where
  h : Host
  p : Page
  pk : PageKeyword
  k : Keyword
deriving DecidableEq, Repr

/-- The join tuples owned by one host: `h.is_active = 1` (WHERE), pages
with `h.id = p.host_id` (ON), keyword links with `p.id = pk.page_id` (ON),
keyword rows with `pk.keyword_id = k.id` (ON) and `k.keyword IN terms`
(WHERE). -/
def rowsForHost (s : DBState) (terms : List String) (h : Host) : List JoinRow :=
  if h.is_active then
    s.pages.flatMap fun p =>
      if h.hid == p.host_id then
        s.page_keywords.flatMap fun pk =>
          if p.pid == pk.page_id then
            s.keywords.flatMap fun k =>
              if pk.keyword_id == k.kid && terms.contains k.keyword
              then [⟨h, p, pk, k⟩] else []
          else []
      else []
  else []

/-- All tuples of the join, hosts outermost. -/
def joinRows (s : DBState) (terms : List String) : List JoinRow :=
  s.hosts.flatMap (rowsForHost s terms)

/-- `SUM(pk.frequency * k.total_occurrences)` over one host's group. -/
def hostScore (s : DBState) (terms : List String) (h : Host) : Int :=
  (((joinRows s terms).filter (fun r => r.h.hid == h.hid)).map
    (fun r => (r.pk.frequency : Int) * (r.k.total_occurrences : Int))).sum

/-- `COUNT(DISTINCT p.id)` over one host's group. -/
def hostPageCount (s : DBState) (terms : List String) (h : Host) : Nat :=
  (((joinRows s terms).filter (fun r => r.h.hid == h.hid)).map
    (fun r => r.p.pid)).dedup.length

/-- One row of `search`'s result list. -/
structure SearchRow where
  ip_address : String
  domain : Option String
  title : Option String
  description : Option String
  response_time : Option Rat
  last_crawled : Nat
  score : Int
  page_count : Nat
deriving DecidableEq, Repr

/-- What `search` returns: the page of rows and the un-paginated total. -/
structure SearchOut where
  results : List SearchRow
  total_count : Nat
deriving DecidableEq, Repr

/-- `ORDER BY score DESC, page_count DESC` as a Boolean "comes no later
than" relation. -/
def searchLe (a b : SearchRow) : Bool :=
  decide (b.score < a.score) ||
    (decide (b.score = a.score) && decide (b.page_count ≤ a.page_count))

/-- The grouped rows of the scoring query before ORDER BY: one row per
active host owning at least one join tuple, in table order
(`GROUP BY h.id`). -/
def searchGroups (s : DBState) (terms : List String) : List SearchRow :=
  (s.hosts.filter (fun h =>
    (joinRows s terms).any (fun r => r.h.hid == h.hid))).map
    (fun h => ⟨h.ip_address, h.domain, h.title, h.description,
      h.response_time, h.last_crawled,
      hostScore s terms h, hostPageCount s terms h⟩)

/-- `SearchService.search(query, limit, offset)`: parse the terms; with no
surviving term return empty results and zero total without consulting the
store; otherwise the scoring query (group, order, paginate) plus the
`COUNT(DISTINCT h.id)` total query. -/
def search (s : DBState) (query : String) (limit offst : Nat) : SearchOut :=
  if (parse_terms query).isEmpty then ⟨[], 0⟩
  else
    ⟨((sortBy searchLe (searchGroups s (parse_terms query))).drop offst).take limit,
     ((joinRows s (parse_terms query)).map (fun r => r.h.hid)).dedup.length⟩

/-- Declarative per-host relevance score, for the statement of claim C3:
over the host's pages, over each page's keyword links, over the keyword
rows matching a query term, sum `frequency × total_occurrences`. -/
def declScore (s : DBState) (terms : List String) (h : Host) : Int :=
  ((s.pages.filter (fun p => h.hid == p.host_id)).map (fun p =>
    ((s.page_keywords.filter (fun pk => p.pid == pk.page_id)).map (fun pk =>
      ((s.keywords.filter (fun k =>
        pk.keyword_id == k.kid && terms.contains k.keyword)).map
        (fun k => (pk.frequency : Int) * (k.total_occurrences : Int))).sum)).sum)).sum

/-- Declarative distinct-matching-page count of a host, for claim C3. -/
def declPageCount (s : DBState) (terms : List String) (h : Host) : Nat :=
  (s.pages.filter (fun p => h.hid == p.host_id &&
    s.page_keywords.any (fun pk => p.pid == pk.page_id &&
      s.keywords.any (fun k =>
        pk.keyword_id == k.kid && terms.contains k.keyword)))).length

/-- A host matches the query: some page of the host carries a keyword among
the query terms. -/
def declMatch (s : DBState) (terms : List String) (h : Host) : Prop :=
  ∃ p ∈ s.pages, ∃ pk ∈ s.page_keywords, ∃ k ∈ s.keywords,
    h.hid = p.host_id ∧ p.pid = pk.page_id ∧
    pk.keyword_id = k.kid ∧ k.keyword ∈ terms

instance (s : DBState) (terms : List String) (h : Host) :
    Decidable (declMatch s terms h) := by
  unfold declMatch
  infer_instance

/-- SQLite `LIKE` matching (ASCII case-folded, as SQLite's default
`LIKE` is), with the `%` and `_` wildcards; `fuel` bounds the recursion
and exceeds `pattern.length + s.length` at every call from `likeMatch`. -/
def likeMatchAux : Nat → List Char → List Char → Bool
  | 0, _, _ => false
  | fuel + 1, ps, s =>
    match ps with
    | [] => s.isEmpty
    | c :: ps' =>
      if c = '%' then
        likeMatchAux fuel ps' s ||
          (match s with
           | [] => false
           | _ :: s' => likeMatchAux fuel (c :: ps') s')
      else
        match s with
        | [] => false
        | d :: s' =>
          if c = '_' then likeMatchAux fuel ps' s'
          else c.toLower == d.toLower && likeMatchAux fuel ps' s'

/-- `pattern LIKE` applied to a string. -/
def likeMatch (ps s : List Char) : Bool :=
  likeMatchAux (ps.length + s.length + 1) ps s

/-- `column LIKE pattern` on a nullable column: NULL matches nothing. -/
def sqlLike (pattern : String) (column : Option String) : Bool :=
  match column with
  | none => false
  | some st => likeMatch pattern.data st.data

/-- One row of `search_by_domain`'s result list; `score` is the constant
`1.0` the source attaches to every domain match. -/
structure DomainRow where
  ip_address : String
  domain : Option String
  title : Option String
  description : Option String
  score : Rat
  response_time : Option Rat
  last_crawled : Nat
deriving DecidableEq, Repr

/-- What `search_by_domain` returns. -/
structure DomainOut where
  results : List DomainRow
  total_count : Nat
deriving DecidableEq, Repr

/-- `ORDER BY last_crawled DESC` as a Boolean relation on host rows. -/
def domainLe (a b : Host) : Bool := Nat.ble b.last_crawled a.last_crawled

/-- `SearchService.search_by_domain(domain, limit, offset)`: active hosts
whose `domain` column matches `'%' + domain + '%'` under SQLite `LIKE`,
most recently crawled first, paginated, each with score 1.0; the total is
the un-paginated `COUNT(*)` of the same filter. -/
def search_by_domain (s : DBState) (domain : String) (limit offst : Nat) :
    DomainOut :=
  ⟨(((sortBy domainLe (s.hosts.filter (fun h =>
      sqlLike ("%" ++ domain ++ "%") h.domain && h.is_active))).drop offst).take
      limit).map (fun h => ⟨h.ip_address, h.domain, h.title, h.description,
        1, h.response_time, h.last_crawled⟩),
   (s.hosts.filter (fun h =>
      sqlLike ("%" ++ domain ++ "%") h.domain && h.is_active)).length⟩

/-- Case-insensitive (ASCII) substring containment on a nullable column —
what `domain LIKE '%needle%'` amounts to for a wildcard-free needle. -/
def ciContains (column : Option String) (needle : String) : Prop :=
  match column with
  | none => False
  | some s => List.IsInfix (needle.data.map Char.toLower) (s.data.map Char.toLower)

instance : ∀ (column : Option String) (needle : String),
    Decidable (ciContains column needle)
  | none, _ => isFalse (fun h => h)
  | some s, needle =>
    (inferInstance : Decidable (List.IsInfix (needle.data.map Char.toLower)
      (s.data.map Char.toLower)))

/-! ### The Writer: `process_ip`'s transaction body

`crawler_service.py` lines 212-309.  `process_ip` opens a connection and
executes, on a present probe result: `INSERT OR REPLACE INTO hosts ...`
(the conflicting row is deleted and a fresh row inserted — `lastrowid` is
the new host id), `INSERT INTO pages ...`, then per extracted keyword
`INSERT OR IGNORE INTO keywords`, `SELECT id`, `UPDATE keywords SET
total_occurrences = total_occurrences + 1` and `INSERT INTO
page_keywords`, and finally the queue UPDATE; on an absent result: the
reduced host upsert (other columns NULL) and the queue UPDATE.  The
functions below are that statement sequence — the transaction body.
NOTE the `return` statements on lines 283 and 301 precede the
`conn.commit()` on line 303, which is unreachable; see claims C2 and C5. -/

/-- The probe result dict `crawl_ip` returns on success. -/
structure ProbeResult where
  status_code : Int
  title : Option String
  description : Option String
  response_time : Rat
  server_info : String
  content_type : String
  content : String
  keywords : List (String × Nat)
deriving DecidableEq, Repr

/-- One iteration of the keyword loop (lines 248-272), `page_id` being the
id of the page row just inserted. -/
def keywordStep (page_id : Nat) (st : DBState) (kw : String × Nat) : DBState :=
  let exists_ := st.keywords.any (fun k => k.keyword == kw.1)
  let keywords₁ :=
    if exists_ then st.keywords
    else st.keywords ++ [⟨st.next_keyword_id, kw.1, 0⟩]
  let kid := ((keywords₁.find? (fun k => k.keyword == kw.1)).map
    (fun k => k.kid)).getD 0
  { st with
    keywords := keywords₁.map (fun k =>
      if k.kid == kid
      then { k with total_occurrences := k.total_occurrences + 1 } else k),
    page_keywords := st.page_keywords ++ [⟨page_id, kid, kw.2⟩],
    next_keyword_id := if exists_ then st.next_keyword_id
      else st.next_keyword_id + 1 }

/-- The statement sequence of the success branch (lines 218-283); `hashFn`
stands for Python's builtin `hash` applied to the body, `now` for
`CURRENT_TIMESTAMP`. -/
def process_ip_success (hashFn : String → Int) (s : DBState) (ip : String)
    (now : Nat) (r : ProbeResult) : DBState :=
  let host_id := s.next_host_id
  let s₁ := { s with
    hosts := s.hosts.filter (fun h : Host => !(h.ip_address == ip)) ++
      ([⟨host_id, ip, none, r.title, r.description, some r.status_code,
        some r.response_time, some r.server_info, some r.content_type,
        true, now⟩] : List Host),
    next_host_id := s.next_host_id + 1 }
  let page_id := s₁.next_page_id
  let s₂ := { s₁ with
    pages := s₁.pages ++ ([⟨page_id, host_id, "http://" ++ ip,
      hashFn r.content, r.title, r.description, r.status_code,
      r.response_time, r.content.length, now⟩] : List Page),
    next_page_id := s₁.next_page_id + 1 }
  let s₃ := r.keywords.foldl (keywordStep page_id) s₂
  { s₃ with crawl_queue := mark_completed s₃.crawl_queue ip }

/-- The statement sequence of the failure branch (lines 286-298): host
upsert with `is_active = 0` and every other column NULL, queue marked
failed. -/
def process_ip_failure (s : DBState) (ip : String) (now : Nat) : DBState :=
  let s₁ := { s with
    hosts := s.hosts.filter (fun h : Host => !(h.ip_address == ip)) ++
      ([⟨s.next_host_id, ip, none, none, none, none, none, none, none,
        false, now⟩] : List Host),
    next_host_id := s.next_host_id + 1 }
  { s₁ with crawl_queue := mark_failed s₁.crawl_queue ip }

/-- The transaction body `process_ip` executes, and the Boolean the
function returns. -/
def process_ip_tx (hashFn : String → Int) (s : DBState) (ip : String)
    (now : Nat) (result : Option ProbeResult) : DBState × Bool :=
  match result with
  | some r => (process_ip_success hashFn s ip now r, true)
  | none => (process_ip_failure s ip now, false)

/-! ### Concrete states used by closed theorems -/

/-- The empty store. -/
def emptyState : DBState := ⟨[], [], [], [], [], 1, 1, 1⟩

/-- A store holding one active host whose single page carries the keyword
`"the"` — `search` never writes such a keyword (the crawler filters stop
words), but the search path itself applies no stop-word filter. -/
def theState : DBState :=
  ⟨[⟨1, "7.7.7.7", none, none, none, some 200, none, none, none, true, 5⟩],
   [⟨1, 1, "http://7.7.7.7", 0, none, none, 200, 0, 10, 5⟩],
   [⟨1, "the", 3⟩],
   [⟨1, 1, 2⟩],
   [], 2, 2, 2⟩

/-- The spec's ranking example: hosts A (8.8.8.8) and B (9.9.9.9), both
active, one page each, keyword `"server"` with global `total_occurrences`
10, page frequencies 5 (A) and 2 (B). -/
def serverState : DBState :=
  ⟨[⟨1, "8.8.8.8", none, none, none, some 200, none, none, none, true, 5⟩,
    ⟨2, "9.9.9.9", none, none, none, some 200, none, none, none, true, 6⟩],
   [⟨1, 1, "http://8.8.8.8", 0, none, none, 200, 0, 10, 5⟩,
    ⟨2, 2, "http://9.9.9.9", 0, none, none, 200, 0, 10, 6⟩],
   [⟨1, "server", 10⟩],
   [⟨1, 1, 5⟩, ⟨2, 1, 2⟩],
   [], 3, 3, 2⟩

/-- A store with one active host whose domain is `"Example.com"` (mixed
case), for the `search_by_domain` case-sensitivity counterexample. -/
def domainState : DBState :=
  ⟨[⟨1, "9.9.9.9", some "Example.com", none, none, some 200, none, none,
     none, true, 7⟩],
   [], [], [], [], 2, 1, 1⟩

/-- Initial store of the C2 evaluation: the address is `in-progress` in
the queue and the keyword `"server"` already has 4 accumulated
occurrences. -/
def writerState : DBState :=
  ⟨[], [], [⟨1, "server", 4⟩], [],
   [⟨1, "1.2.3.4", "in-progress"⟩], 1, 1, 2⟩

/-- The probe result of the C2 evaluation. -/
def writerProbe : ProbeResult :=
  ⟨200, some "srv", none, 1, "nginx", "text/html", "hello server",
   [("server", 5), ("nginx", 2)]⟩

/-- Initial store of the C5 evaluation: the host row carries metadata from
an earlier successful crawl, the queue entry is `in-progress`. -/
def failState : DBState :=
  ⟨[⟨1, "4.4.4.4", none, some "old title", some "desc", some 200, some 1,
     some "Apache", some "text/html", true, 3⟩],
   [], [], [], [⟨1, "4.4.4.4", "in-progress"⟩], 2, 1, 1⟩

/-! ## Proofs about the task queue (claim C1) -/

theorem statusOf_map_preserve (q : List QueueEntry) (f : QueueEntry → QueueEntry)
    (hf : ∀ e, (f e).ip_address = e.ip_address) (a : String) :
    statusOf (q.map f) a = ((q.find? (fun e => e.ip_address == a)).map f).map
      (fun e => e.status) := by
  unfold statusOf
  rw [List.find?_map]
  have : (fun e => e.ip_address == a) ∘ f = fun e => e.ip_address == a := by
    funext e
    simp [Function.comp, hf e]
  rw [this]

theorem find?_eq_of_mem_nodup (q : List QueueEntry)
    (haddr : (q.map (fun e => e.ip_address)).Nodup)
    (e : QueueEntry) (he : e ∈ q) :
    q.find? (fun x => x.ip_address == e.ip_address) = some e := by
  induction q with
  | nil => cases he
  | cons h t ih =>
    simp only [List.map_cons, List.nodup_cons] at haddr
    rcases List.mem_cons.mp he with rfl | hmem
    · simp [List.find?_cons]
    · have hne : (h.ip_address == e.ip_address) = false := by
        rw [beq_eq_false_iff_ne]
        intro heq
        exact haddr.1 (by rw [heq]; exact List.mem_map_of_mem _ hmem)
      simp only [List.find?_cons, hne]
      exact ih haddr.2 hmem

theorem batchSel_sublist (q : List QueueEntry) (n : Nat) :
    List.Sublist (batchSel q n) q :=
  (List.take_sublist _ _).trans (List.filter_sublist _)

theorem mem_batchSel (q : List QueueEntry) (n : Nat) (e : QueueEntry)
    (he : e ∈ batchSel q n) : e ∈ q ∧ e.status = "pending" := by
  have hm := List.mem_of_mem_take he
  have := List.mem_filter.mp hm
  exact ⟨this.1, by simpa using this.2⟩

theorem batch_ip_preserved (q : List QueueEntry) (n : Nat) :
    (get_next_ip_batch q n).2.map (fun e => e.ip_address) =
      q.map (fun e => e.ip_address) := by
  unfold get_next_ip_batch
  rw [List.map_map]
  apply List.map_congr_left
  intro e _
  simp only [Function.comp_apply]
  split <;> rfl

theorem mem_batch_props (q : List QueueEntry) (n : Nat)
    (haddr : (q.map (fun e => e.ip_address)).Nodup)
    (a : String) (ha : a ∈ (get_next_ip_batch q n).1) :
    statusOf q a = some "pending" ∧
      statusOf (get_next_ip_batch q n).2 a = some "in-progress" := by
  obtain ⟨e, he, rfl⟩ := List.mem_map.mp ha
  have hq := mem_batchSel q n e he
  have hfind := find?_eq_of_mem_nodup q haddr e hq.1
  constructor
  · unfold statusOf
    rw [hfind]
    simp [hq.2]
  · unfold get_next_ip_batch
    rw [statusOf_map_preserve]
    · rw [hfind]
      have hc : ((batchSel q n).map (fun x => x.qid)).contains e.qid = true :=
        List.elem_eq_true_of_mem (List.mem_map_of_mem _ he)
      dsimp only [Option.map_some']
      rw [if_pos hc]
    · intro x
      dsimp only
      split <;> rfl

/-- Claim C1: `get_next_ip_batch(n)` returns at most `n` addresses; each
returned address had queue status `pending` immediately before the call and
`in-progress` immediately after; and — the transactions being serialized by
the store — a second call on the resulting queue (the other concurrent
claimer) receives no address of the first call, the union of the two
results having no duplicates.  The hypothesis is the `crawl_queue` schema
constraint that addresses are unique. -/
theorem claim_batch_atomic (q : List QueueEntry) (n m : Nat)
    (haddr : (q.map (fun e => e.ip_address)).Nodup) :
    (get_next_ip_batch q n).1.length ≤ n ∧
    (∀ a ∈ (get_next_ip_batch q n).1,
      statusOf q a = some "pending" ∧
      statusOf (get_next_ip_batch q n).2 a = some "in-progress") ∧
    (∀ a ∈ (get_next_ip_batch q n).1,
      a ∉ (get_next_ip_batch (get_next_ip_batch q n).2 m).1) ∧
    ((get_next_ip_batch q n).1 ++
      (get_next_ip_batch (get_next_ip_batch q n).2 m).1).Nodup := by
  have haddr' : ((get_next_ip_batch q n).2.map (fun e => e.ip_address)).Nodup := by
    rw [batch_ip_preserved]; exact haddr
  have hdisj : ∀ a ∈ (get_next_ip_batch q n).1,
      a ∉ (get_next_ip_batch (get_next_ip_batch q n).2 m).1 := by
    intro a ha ha2
    have h1 := (mem_batch_props q n haddr a ha).2
    have h2 := (mem_batch_props _ m haddr' a ha2).1
    rw [h1] at h2
    exact absurd (Option.some.inj h2) (by decide)
  refine ⟨?_, fun a ha => mem_batch_props q n haddr a ha, hdisj, ?_⟩
  · unfold get_next_ip_batch
    rw [List.length_map]
    unfold batchSel
    exact (List.length_take_le _ _)
  · have h1 : (get_next_ip_batch q n).1.Nodup := by
      have := ((batchSel_sublist q n).map (fun e => e.ip_address)).nodup haddr
      exact this
    have h2 : (get_next_ip_batch (get_next_ip_batch q n).2 m).1.Nodup := by
      have := ((batchSel_sublist (get_next_ip_batch q n).2 m).map
        (fun e => e.ip_address)).nodup haddr'
      exact this
    exact h1.append h2 hdisj

/-- Witness for C1 at a concrete queue of two pending addresses and
`n = m = 1`: the first claimer receives `1.1.1.1`, which is `pending`
before and `in-progress` after, and the second claimer does not receive it. -/
theorem claim_batch_atomic_witness :
    (get_next_ip_batch [⟨1, "1.1.1.1", "pending"⟩, ⟨2, "2.2.2.2", "pending"⟩] 1).1.length ≤ 1 ∧
    (∀ a ∈ (get_next_ip_batch [⟨1, "1.1.1.1", "pending"⟩, ⟨2, "2.2.2.2", "pending"⟩] 1).1,
      statusOf [⟨1, "1.1.1.1", "pending"⟩, ⟨2, "2.2.2.2", "pending"⟩] a = some "pending" ∧
      statusOf (get_next_ip_batch [⟨1, "1.1.1.1", "pending"⟩, ⟨2, "2.2.2.2", "pending"⟩] 1).2 a
        = some "in-progress") ∧
    (∀ a ∈ (get_next_ip_batch [⟨1, "1.1.1.1", "pending"⟩, ⟨2, "2.2.2.2", "pending"⟩] 1).1,
      a ∉ (get_next_ip_batch
        (get_next_ip_batch [⟨1, "1.1.1.1", "pending"⟩, ⟨2, "2.2.2.2", "pending"⟩] 1).2 1).1) ∧
    ((get_next_ip_batch [⟨1, "1.1.1.1", "pending"⟩, ⟨2, "2.2.2.2", "pending"⟩] 1).1 ++
      (get_next_ip_batch
        (get_next_ip_batch [⟨1, "1.1.1.1", "pending"⟩, ⟨2, "2.2.2.2", "pending"⟩] 1).2 1).1).Nodup :=
  claim_batch_atomic [⟨1, "1.1.1.1", "pending"⟩, ⟨2, "2.2.2.2", "pending"⟩] 1 1 (by decide)

/-! ## Proofs about the telemetry ring buffer (claim C9) -/

theorem foldl_dequeAppend (cap : Nat) (evs : List RecentEvent) :
    ∀ buf : List RecentEvent, buf.length ≤ cap →
      evs.foldl (dequeAppend cap) buf =
        (buf ++ evs).drop (buf.length + evs.length - cap) := by
  induction evs with
  | nil =>
    intro buf h
    simp [Nat.sub_eq_zero_of_le h]
  | cons e t ih =>
    intro buf h
    rw [List.foldl_cons]
    by_cases hlt : cap < (buf ++ [e]).length
    · have hlen : buf.length = cap := by
        rw [List.length_append, List.length_singleton] at hlt
        omega
      have hd : dequeAppend cap buf e = (buf ++ [e]).drop 1 := by
        unfold dequeAppend
        rw [if_pos hlt]
        congr 1
        rw [List.length_append, List.length_singleton]
        omega
      rw [hd]
      have hlen' : ((buf ++ [e]).drop 1).length = cap := by
        rw [List.length_drop, List.length_append, List.length_singleton]
        omega
      rw [ih _ (le_of_eq hlen'), hlen']
      have h2 : cap + t.length - cap = t.length := by omega
      have h1 : (buf ++ [e]).drop 1 ++ t = ((buf ++ [e]) ++ t).drop 1 :=
        (List.drop_append_of_le_length (by
          rw [List.length_append, List.length_singleton]; omega)).symm
      rw [h2, h1, List.drop_drop]
      have h3 : buf ++ [e] ++ t = buf ++ e :: t := by
        rw [List.append_assoc, List.singleton_append]
      rw [h3]
      congr 1
      rw [List.length_cons]
      omega
    · have hle : (buf ++ [e]).length ≤ cap := le_of_not_lt hlt
      have hd : dequeAppend cap buf e = buf ++ [e] := by
        unfold dequeAppend
        rw [if_neg hlt]
      rw [hd, ih _ hle]
      rw [List.append_assoc, List.singleton_append]
      congr 1
      rw [List.length_append, List.length_singleton, List.length_cons]
      omega

/-- Claim C9: under any sequence of appended telemetry events, the
`recent_events` deque never holds more than its capacity of 200 entries,
and it always equals exactly the most recent events in append order
(newest-last) — i.e. once full, each append evicts the oldest entry. -/
theorem recent_events_ring_buffer (evs : List RecentEvent) :
    (recentEventsAfter evs).length ≤ 200 ∧
    recentEventsAfter evs = evs.drop (evs.length - 200) := by
  have h := foldl_dequeAppend 200 evs [] (by simp)
  simp only [List.nil_append, List.length_nil, Nat.zero_add] at h
  unfold recentEventsAfter
  rw [h]
  refine ⟨?_, rfl⟩
  rw [List.length_drop]
  omega

/-! ## Proofs about keyword extraction (claim C4) -/

theorem find?_fst_eq_of_mem_nodup (l : List (String × Nat))
    (hnd : (l.map Prod.fst).Nodup) (p : String × Nat) (hp : p ∈ l) :
    l.find? (fun x => x.1 == p.1) = some p := by
  induction l with
  | nil => cases hp
  | cons h t ih =>
    simp only [List.map_cons, List.nodup_cons] at hnd
    rcases List.mem_cons.mp hp with rfl | hmem
    · simp [List.find?_cons]
    · have hne : (h.1 == p.1) = false := by
        rw [beq_eq_false_iff_ne]
        intro heq
        exact hnd.1 (by rw [heq]; exact List.mem_map_of_mem _ hmem)
      simp only [List.find?_cons, hne]
      exact ih hnd.2 hmem

theorem counterAdd_keys (acc : List (String × Nat)) (w : String) :
    (counterAdd acc w).map Prod.fst =
      if acc.any (fun p => p.1 == w) then acc.map Prod.fst
      else acc.map Prod.fst ++ [w] := by
  unfold counterAdd
  split
  · rw [List.map_map]
    apply List.map_congr_left
    intro p _
    dsimp only [Function.comp_apply]
    split <;> rfl
  · rw [List.map_append]
    rfl

theorem counterAdd_keys_mem (acc : List (String × Nat)) (w v : String) :
    v ∈ (counterAdd acc w).map Prod.fst ↔ v ∈ acc.map Prod.fst ∨ v = w := by
  rw [counterAdd_keys]
  split
  case isTrue h =>
    constructor
    · exact Or.inl
    · rintro (hv | rfl)
      · exact hv
      · obtain ⟨p, hp, hpe⟩ := List.any_eq_true.mp h
        rw [← eq_of_beq hpe]
        exact List.mem_map_of_mem _ hp
  case isFalse h =>
    rw [List.mem_append, List.mem_singleton]

theorem counterAdd_keys_nodup (acc : List (String × Nat)) (w : String)
    (hnd : (acc.map Prod.fst).Nodup) :
    ((counterAdd acc w).map Prod.fst).Nodup := by
  rw [counterAdd_keys]
  split
  case isTrue h => exact hnd
  case isFalse h =>
    apply hnd.append (List.nodup_singleton w)
    intro x hx hx2
    rw [List.mem_singleton] at hx2
    subst hx2
    obtain ⟨p, hp, hpe⟩ := List.mem_map.mp hx
    exact h (List.any_eq_true.mpr ⟨p, hp, by rw [hpe]; exact beq_self_eq_true x⟩)

theorem counterAdd_fst_invariant (w : String)
    (p : String × Nat) :
    ((fun p : String × Nat => p.1 == w) ∘
      fun p : String × Nat => if p.1 == w then (p.1, p.2 + 1) else p) p
      = (p.1 == w) := by
  dsimp only [Function.comp_apply]
  split <;> rfl

theorem counterAdd_cval_self (acc : List (String × Nat)) (w : String) :
    cval (counterAdd acc w) w = cval acc w + 1 := by
  unfold counterAdd cval
  split
  case isTrue h =>
    rw [List.find?_map, funext (counterAdd_fst_invariant w)]
    obtain ⟨p, hp, hpw⟩ := List.any_eq_true.mp h
    have hsome : (acc.find? (fun p => p.1 == w)).isSome = true :=
      List.find?_isSome.mpr ⟨p, hp, hpw⟩
    obtain ⟨p₀, hfind⟩ := Option.isSome_iff_exists.mp hsome
    have hp₀ := List.find?_some hfind
    rw [hfind]
    dsimp only [Option.map_some', Option.getD_some]
    rw [if_pos hp₀]
  case isFalse h =>
    rw [List.find?_append]
    have hnone : acc.find? (fun p => p.1 == w) = none := by
      rw [List.find?_eq_none]
      intro x hx hxw
      exact h (List.any_eq_true.mpr ⟨x, hx, hxw⟩)
    rw [hnone]
    simp

theorem counterAdd_cval_other (acc : List (String × Nat)) (w v : String)
    (hvw : v ≠ w) :
    cval (counterAdd acc w) v = cval acc v := by
  unfold counterAdd cval
  split
  case isTrue h =>
    rw [List.find?_map]
    have hcomp : ((fun p : String × Nat => p.1 == v) ∘
        fun p : String × Nat => if p.1 == w then (p.1, p.2 + 1) else p)
        = fun p : String × Nat => p.1 == v := by
      funext p
      dsimp only [Function.comp_apply]
      split <;> rfl
    rw [hcomp]
    cases hfind : acc.find? (fun p => p.1 == v) with
    | none => rfl
    | some p =>
      have hp1 := List.find?_some hfind
      have hpw : (p.1 == w) = false := by
        rw [beq_eq_false_iff_ne]
        rw [beq_iff_eq] at hp1
        rw [hp1]
        exact hvw
      dsimp only [Option.map_some', Option.getD_some]
      rw [if_neg (by simp [hpw])]
  case isFalse h =>
    rw [List.find?_append]
    have hwv : ((w, 1).1 == v) = false := by
      rw [beq_eq_false_iff_ne]
      exact fun hc => hvw hc.symm
    cases hfind : acc.find? (fun p => p.1 == v) with
    | none => simp [List.find?_cons, hwv]
    | some p => simp

theorem countTok_cons (t : String) (ts : List String) (w : String) :
    countTok (t :: ts) w = (if (t == w) = true then 1 else 0) + countTok ts w := by
  unfold countTok
  rw [List.filter_cons]
  split
  case isTrue h => rw [List.length_cons]; omega
  case isFalse h => omega

theorem counter_foldl (ws : List String) :
    ∀ acc : List (String × Nat), (acc.map Prod.fst).Nodup →
      ((ws.foldl counterAdd acc).map Prod.fst).Nodup ∧
      (∀ w, cval (ws.foldl counterAdd acc) w = cval acc w + countTok ws w) ∧
      (∀ w, w ∈ (ws.foldl counterAdd acc).map Prod.fst ↔
        w ∈ acc.map Prod.fst ∨ w ∈ ws) := by
  induction ws with
  | nil =>
    intro acc h
    refine ⟨h, fun w => by simp [countTok], fun w => by simp⟩
  | cons t ts ih =>
    intro acc h
    have hnd' := counterAdd_keys_nodup acc t h
    obtain ⟨h1, h2, h3⟩ := ih (counterAdd acc t) hnd'
    rw [List.foldl_cons]
    refine ⟨h1, ?_, ?_⟩
    · intro w
      rw [h2 w, countTok_cons]
      by_cases hw : w = t
      · subst hw
        rw [counterAdd_cval_self, if_pos (by simp)]
        omega
      · rw [counterAdd_cval_other acc t w hw,
          if_neg (by simp; exact fun hc => hw hc.symm)]
        omega
    · intro w
      rw [h3 w, counterAdd_keys_mem, List.mem_cons]
      tauto

theorem counter_props (ws : List String) :
    ((counter ws).map Prod.fst).Nodup ∧
    (∀ p ∈ counter ws, p.1 ∈ ws ∧ p.2 = countTok ws p.1) ∧
    (∀ w ∈ ws, w ∈ (counter ws).map Prod.fst) := by
  obtain ⟨h1, h2, h3⟩ := counter_foldl ws [] (by simp)
  have hc : ws.foldl counterAdd [] = counter ws := rfl
  rw [hc] at h1 h3
  simp only [hc] at h2
  refine ⟨h1, ?_, ?_⟩
  · intro p hp
    have hkey : p.1 ∈ (counter ws).map Prod.fst := List.mem_map_of_mem _ hp
    have hmem : p.1 ∈ ws := by
      have := (h3 p.1).mp hkey
      simpa using this
    refine ⟨hmem, ?_⟩
    have hfind := find?_fst_eq_of_mem_nodup (counter ws) h1 p hp
    have hcv : cval (counter ws) p.1 = p.2 := by
      unfold cval
      rw [hfind]
      rfl
    have h2' := h2 p.1
    rw [hcv] at h2'
    simpa [cval] using h2'
  · intro w hw
    exact (h3 w).mpr (Or.inr hw)

/-! ## Generic facts about the insertion sort used for `sorted` / `ORDER BY` -/

theorem insertBy_perm {α : Type} (le : α → α → Bool) (a : α) (l : List α) :
    (insertBy le a l).Perm (a :: l) := by
  induction l with
  | nil => exact List.Perm.refl _
  | cons b t ih =>
    unfold insertBy
    split
    · exact List.Perm.refl _
    · exact (ih.cons b).trans (List.Perm.swap a b t)

theorem sortBy_perm {α : Type} (le : α → α → Bool) (l : List α) :
    (sortBy le l).Perm l := by
  induction l with
  | nil => exact List.Perm.refl _
  | cons a t ih =>
    unfold sortBy
    exact (insertBy_perm le a (sortBy le t)).trans (ih.cons a)

theorem insertBy_pairwise {α : Type} (le : α → α → Bool)
    (htot : ∀ x y, le x y = true ∨ le y x = true)
    (htrans : ∀ x y z, le x y = true → le y z = true → le x z = true)
    (a : α) (l : List α) (hl : l.Pairwise (fun x y => le x y = true)) :
    (insertBy le a l).Pairwise (fun x y => le x y = true) := by
  induction l with
  | nil => simp [insertBy]
  | cons b t ih =>
    rw [List.pairwise_cons] at hl
    unfold insertBy
    split
    case isTrue hab =>
      rw [List.pairwise_cons]
      refine ⟨?_, List.pairwise_cons.mpr hl⟩
      intro x hx
      rcases List.mem_cons.mp hx with rfl | hx'
      · exact hab
      · exact htrans a b x hab (hl.1 x hx')
    case isFalse hab =>
      rw [List.pairwise_cons]
      refine ⟨?_, ih hl.2⟩
      intro x hx
      rcases List.mem_cons.mp ((insertBy_perm le a t).mem_iff.mp hx) with rfl | hx'
      · rcases htot x b with h | h
        · exact absurd h hab
        · exact h
      · exact hl.1 x hx'

theorem sortBy_pairwise {α : Type} (le : α → α → Bool)
    (htot : ∀ x y, le x y = true ∨ le y x = true)
    (htrans : ∀ x y z, le x y = true → le y z = true → le x z = true)
    (l : List α) :
    (sortBy le l).Pairwise (fun x y => le x y = true) := by
  induction l with
  | nil => simp [sortBy]
  | cons a t ih =>
    unfold sortBy
    exact insertBy_pairwise le htot htrans a _ ih

/-- Counterexample to claim C4 as stated: in the text `"abc1"` the maximal
run of 3+ alphabetic characters is `"abc"` (not a stop word, long enough),
so under the claimed tokenization `extract_keywords` would return
`[("abc", 1)]`; but the regex `\b[a-zA-Z]{3,}\b` requires a word boundary
after the run, the digit `1` is a word character, so the code finds no
token at all and returns the empty list. -/
theorem extract_keywords_counterexample :
    claimTokens "abc1" = ["abc"] ∧
    "abc" ∉ stop_words ∧
    min_keyword_length ≤ "abc".length ∧
    words "abc1" = [] ∧
    extract_keywords "abc1" 20 = [] := by decide

/-- Claim C4 (amended): `extract_keywords` lower-cases the text; its tokens
are the maximal runs of 3 or more alphabetic characters **whose neighbouring
characters are not digits or underscores** (the regex word-boundary
condition, `words`); it counts token frequencies; drops stop words and
tokens shorter than the configured minimum length; sorts the surviving
tokens by frequency descending (ties unordered); and returns at most
`max_keywords` (keyword, frequency) pairs — each returned pair carries a
surviving token and its exact frequency, the keys are distinct, and any
surviving token left out has frequency at most that of every returned
pair (returned only when the result is already full). -/
theorem extract_keywords_amended (text : String) (max_keywords : Nat) :
    ((extract_keywords text max_keywords).map Prod.fst).Nodup ∧
    (extract_keywords text max_keywords).length ≤ max_keywords ∧
    (∀ p ∈ extract_keywords text max_keywords,
      p.1 ∈ words text ∧ p.1 ∉ stop_words ∧ min_keyword_length ≤ p.1.length ∧
      p.2 = countTok (words text) p.1) ∧
    (extract_keywords text max_keywords).Pairwise (fun a b => b.2 ≤ a.2) ∧
    (∀ w ∈ words text, w ∉ stop_words → min_keyword_length ≤ w.length →
      w ∉ (extract_keywords text max_keywords).map Prod.fst →
      (extract_keywords text max_keywords).length = max_keywords ∧
      ∀ p ∈ extract_keywords text max_keywords, countTok (words text) w ≤ p.2) := by
  obtain ⟨hnd, hvals, hkeys⟩ := counter_props (words text)
  have hEK : extract_keywords text max_keywords =
      (sortBy (fun a b : String × Nat => Nat.ble b.2 a.2)
        ((counter (words text)).filter
          (fun p => !(stop_words.contains p.1) &&
            decide (min_keyword_length ≤ p.1.length)))).take max_keywords := rfl
  have hFnd : (((counter (words text)).filter
      (fun p => !(stop_words.contains p.1) &&
        decide (min_keyword_length ≤ p.1.length))).map Prod.fst).Nodup :=
    ((List.filter_sublist _).map Prod.fst).nodup hnd
  have hSperm := sortBy_perm (fun a b : String × Nat => Nat.ble b.2 a.2)
    ((counter (words text)).filter
      (fun p => !(stop_words.contains p.1) &&
        decide (min_keyword_length ≤ p.1.length)))
  have hSnd : ((sortBy (fun a b : String × Nat => Nat.ble b.2 a.2)
      ((counter (words text)).filter
        (fun p => !(stop_words.contains p.1) &&
          decide (min_keyword_length ≤ p.1.length)))).map Prod.fst).Nodup :=
    ((hSperm.map Prod.fst).nodup_iff).mpr hFnd
  have hSpair := sortBy_pairwise (fun a b : String × Nat => Nat.ble b.2 a.2)
    (fun x y => by rcases Nat.le_total y.2 x.2 with h | h
                   · exact Or.inl (by rw [Nat.ble_eq]; exact h)
                   · exact Or.inr (by rw [Nat.ble_eq]; exact h))
    (fun x y z hxy hyz => by
      rw [Nat.ble_eq] at hxy hyz ⊢
      exact le_trans hyz hxy)
    ((counter (words text)).filter
      (fun p => !(stop_words.contains p.1) &&
        decide (min_keyword_length ≤ p.1.length)))
  have hmemF : ∀ p ∈ extract_keywords text max_keywords,
      p ∈ (counter (words text)).filter
        (fun p => !(stop_words.contains p.1) &&
          decide (min_keyword_length ≤ p.1.length)) := by
    intro p hp
    rw [hEK] at hp
    exact hSperm.mem_iff.mp (List.mem_of_mem_take hp)
  refine ⟨?_, ?_, ?_, ?_, ?_⟩
  · rw [hEK, List.map_take]
    exact (List.take_sublist _ _).nodup hSnd
  · rw [hEK]
    exact le_trans (List.length_take_le _ _) (le_refl _)
  · intro p hp
    have hpF := hmemF p hp
    rw [List.mem_filter] at hpF
    obtain ⟨hpc, hcond⟩ := hpF
    rw [Bool.and_eq_true, Bool.not_eq_true', decide_eq_true_eq] at hcond
    have hstop : p.1 ∉ stop_words := by
      intro hmem
      have hc2 : stop_words.contains p.1 = true := List.elem_eq_true_of_mem hmem
      exact Bool.noConfusion (hc2.symm.trans hcond.1)
    exact ⟨(hvals p hpc).1, hstop, hcond.2, (hvals p hpc).2⟩
  · rw [hEK]
    refine List.Pairwise.imp ?_ (List.Pairwise.sublist (List.take_sublist _ _) hSpair)
    intro a b h
    rw [Nat.ble_eq] at h
    exact h
  · intro w hw hstop hlen hnotin
    obtain ⟨p, hpc, hp1⟩ := List.mem_map.mp (hkeys w hw)
    have hpF : p ∈ (counter (words text)).filter
        (fun p => !(stop_words.contains p.1) &&
          decide (min_keyword_length ≤ p.1.length)) := by
      rw [List.mem_filter]
      refine ⟨hpc, ?_⟩
      rw [Bool.and_eq_true, Bool.not_eq_true', decide_eq_true_eq]
      constructor
      · rw [← Bool.not_eq_true]
        intro hcontains
        rw [List.contains_iff_exists_mem_beq] at hcontains
        obtain ⟨a, ha, hab⟩ := hcontains
        rw [beq_iff_eq] at hab
        rw [hp1] at hab
        exact hstop (hab ▸ ha)
      · rw [hp1]
        exact hlen
    have hpS : p ∈ sortBy (fun a b : String × Nat => Nat.ble b.2 a.2)
        ((counter (words text)).filter
          (fun p => !(stop_words.contains p.1) &&
            decide (min_keyword_length ≤ p.1.length))) :=
      hSperm.mem_iff.mpr hpF
    have hpR : p ∉ extract_keywords text max_keywords := by
      intro hc
      exact hnotin (by rw [← hp1]; exact List.mem_map_of_mem _ hc)
    have hpD : p ∈ (sortBy (fun a b : String × Nat => Nat.ble b.2 a.2)
        ((counter (words text)).filter
          (fun p => !(stop_words.contains p.1) &&
            decide (min_keyword_length ≤ p.1.length)))).drop max_keywords := by
      have := (List.take_append_drop max_keywords
        (sortBy (fun a b : String × Nat => Nat.ble b.2 a.2)
          ((counter (words text)).filter
            (fun p => !(stop_words.contains p.1) &&
              decide (min_keyword_length ≤ p.1.length))))).symm
      rw [this] at hpS
      rcases List.mem_append.mp hpS with hc | hc
      · exact absurd (by rw [hEK]; exact hc) hpR
      · exact hc
    constructor
    · rw [hEK, List.length_take]
      have hne : (sortBy (fun a b : String × Nat => Nat.ble b.2 a.2)
          ((counter (words text)).filter
            (fun p => !(stop_words.contains p.1) &&
              decide (min_keyword_length ≤ p.1.length)))).drop max_keywords ≠ [] := by
        intro hc
        rw [hc] at hpD
        cases hpD
      have hlt : max_keywords < (sortBy (fun a b : String × Nat => Nat.ble b.2 a.2)
          ((counter (words text)).filter
            (fun p => !(stop_words.contains p.1) &&
              decide (min_keyword_length ≤ p.1.length)))).length := by
        by_contra hle
        push_neg at hle
        exact hne (List.drop_eq_nil_iff.mpr hle)
      omega
    · intro q hq
      have hqR : q ∈ (sortBy (fun a b : String × Nat => Nat.ble b.2 a.2)
          ((counter (words text)).filter
            (fun p => !(stop_words.contains p.1) &&
              decide (min_keyword_length ≤ p.1.length)))).take max_keywords := by
        rw [← hEK]
        exact hq
      have hsplit := hSpair
      rw [← List.take_append_drop max_keywords
        (sortBy (fun a b : String × Nat => Nat.ble b.2 a.2)
          ((counter (words text)).filter
            (fun p => !(stop_words.contains p.1) &&
              decide (min_keyword_length ≤ p.1.length))))] at hsplit
      have hdom := (List.pairwise_append.mp hsplit).2.2 q hqR p hpD
      rw [Nat.ble_eq] at hdom
      have hpv := (hvals p hpc).2
      rw [hp1] at hpv
      rw [← hpv]
      exact hdom

/-! ## Proofs about the queue mark operations (claim C8) -/

theorem statusOf_setStatus_self (q : List QueueEntry) (a st : String)
    (h : statusOf q a ≠ none) :
    statusOf (q.map (fun e =>
      if e.ip_address == a then { e with status := st } else e)) a = some st := by
  unfold statusOf at h ⊢
  rw [List.find?_map]
  have hcomp : ((fun e : QueueEntry => e.ip_address == a) ∘
      fun e : QueueEntry => if e.ip_address == a then { e with status := st } else e)
      = fun e : QueueEntry => e.ip_address == a := by
    funext e
    dsimp only [Function.comp_apply]
    split <;> rfl
  rw [hcomp]
  cases hfind : q.find? (fun e => e.ip_address == a) with
  | none => rw [hfind] at h; simp at h
  | some e =>
    have he := List.find?_some hfind
    dsimp only [Option.map_some']
    rw [if_pos he]

theorem statusOf_setStatus_other (q : List QueueEntry) (a st b : String)
    (hba : b ≠ a) :
    statusOf (q.map (fun e =>
      if e.ip_address == a then { e with status := st } else e)) b
      = statusOf q b := by
  unfold statusOf
  rw [List.find?_map]
  have hcomp : ((fun e : QueueEntry => e.ip_address == b) ∘
      fun e : QueueEntry => if e.ip_address == a then { e with status := st } else e)
      = fun e : QueueEntry => e.ip_address == b := by
    funext e
    dsimp only [Function.comp_apply]
    split <;> rfl
  rw [hcomp]
  cases hfind : q.find? (fun e => e.ip_address == b) with
  | none => rfl
  | some e =>
    have he := List.find?_some hfind
    rw [beq_iff_eq] at he
    dsimp only [Option.map_some']
    rw [if_neg (by rw [he]; simp [hba])]

theorem setStatus_noop (q : List QueueEntry) (a st : String)
    (h : statusOf q a = none) :
    q.map (fun e =>
      if e.ip_address == a then { e with status := st } else e) = q := by
  unfold statusOf at h
  have hnone : q.find? (fun e => e.ip_address == a) = none := by
    cases hf : q.find? (fun e => e.ip_address == a) with
    | none => rfl
    | some e => rw [hf] at h; simp at h
  rw [List.find?_eq_none] at hnone
  have hcongr : ∀ e ∈ q,
      (if e.ip_address == a then { e with status := st } else e) = e := by
    intro e he
    rw [if_neg (hnone e he)]
  calc q.map (fun e => if e.ip_address == a then { e with status := st } else e)
      = q.map id := List.map_congr_left hcongr
    _ = q := List.map_id q

/-- Counterexample to claim C8 as stated: the UPDATE statements carry no
`status = 'in-progress'` guard — here an entry whose status is `pending`
(not `in-progress`) is changed to `completed` (resp. `failed`) instead of
being left unchanged. -/
theorem mark_ops_counterexample :
    statusOf [⟨1, "5.5.5.5", "pending"⟩] "5.5.5.5" = some "pending" ∧
    mark_completed [⟨1, "5.5.5.5", "pending"⟩] "5.5.5.5"
      = [⟨1, "5.5.5.5", "completed"⟩] ∧
    mark_failed [⟨1, "5.5.5.5", "pending"⟩] "5.5.5.5"
      = [⟨1, "5.5.5.5", "failed"⟩] := by decide

/-- Claim C8 (amended): `mark_completed(address)` / `mark_failed(address)`
set the status of the queue entry carrying that address to `completed` /
`failed` regardless of its previous status (the UPDATE has no
`in-progress` guard); entries with other addresses are untouched; and the
call is a no-op exactly when no entry carries the address. -/
theorem mark_completed_failed (q : List QueueEntry) (a : String) :
    (statusOf q a ≠ none →
      statusOf (mark_completed q a) a = some "completed" ∧
      statusOf (mark_failed q a) a = some "failed") ∧
    (∀ b, b ≠ a →
      statusOf (mark_completed q a) b = statusOf q b ∧
      statusOf (mark_failed q a) b = statusOf q b) ∧
    (statusOf q a = none → mark_completed q a = q ∧ mark_failed q a = q) := by
  refine ⟨?_, ?_, ?_⟩
  · intro h
    exact ⟨statusOf_setStatus_self q a "completed" h,
      statusOf_setStatus_self q a "failed" h⟩
  · intro b hba
    exact ⟨statusOf_setStatus_other q a "completed" b hba,
      statusOf_setStatus_other q a "failed" b hba⟩
  · intro h
    exact ⟨setStatus_noop q a "completed" h, setStatus_noop q a "failed" h⟩

/-! ## Proofs about the candidate generator (claim C6) -/

/-- Claim C6 evaluation at the failing input: with the RNG yielding the
multicast address 224.1.2.3 (network `0.0.0.0/0`, `count = 1`), the
generator accepts and returns it — CPython's `is_global` does not reject
the multicast block 224.0.0.0/4, although the function's docstring and the
claim say multicast ranges are filtered out. -/
theorem generate_random_ips_accepts_multicast :
    generate_random_ips 1 (fun _ => ip4 224 1 2 3) = ["224.1.2.3"] ∧
    is_multicast (ip4 224 1 2 3) = true ∧
    is_global (ip4 224 1 2 3) = true := by decide

/-! ## Proofs about the no-term search path (claim C7) -/

/-- Counterexample to the all-stop-word part of claim C7: `"the"` is a
stop word of the crawler, yet `parse_terms` keeps it — it is 3 characters
long and `search` applies no stop-word filter — so `search("the")` does
execute the store's join path: its outcome depends on the store's
contents. -/
theorem search_stopword_counterexample :
    "the" ∈ stop_words ∧
    parse_terms "the" = ["the"] ∧
    search theState "the" 10 0 ≠ search emptyState "the" 10 0 := by decide

/-- Claim C7 (amended): for every query in which no term survives
tokenization — lower-casing plus the minimum-length filter, e.g. the
empty string — `search` returns an empty result list and `total_count` 0
without consulting the store: its outcome is identical on every store
state.  (An all-stop-word query is not such a query: stop words of length
≥ 3 survive the filter, see `search_stopword_counterexample`.) -/
theorem search_no_terms (s s' : DBState) (query : String) (limit offst : Nat)
    (h : parse_terms query = []) :
    search s query limit offst = ⟨[], 0⟩ ∧
    search s query limit offst = search s' query limit offst := by
  unfold search
  rw [h]
  simp

/-- Witness for C7 at the empty query on two concrete stores. -/
theorem search_no_terms_witness :
    search theState "" 10 0 = ⟨[], 0⟩ ∧
    search theState "" 10 0 = search emptyState "" 10 0 :=
  search_no_terms theState emptyState "" 10 0 (by decide)

/-! ## Evaluation of the Writer's transaction body (claims C2 and C5) -/

/-- Claim C2, evaluated at a concrete input: the statement sequence of
`process_ip`'s success branch upserts the host row active with the probe
metadata and a fresh `last_crawled`, inserts exactly one page row
referencing that host, bumps each extracted keyword's `total_occurrences`
by exactly 1 (the pre-existing count 4 of `"server"` becomes 5, not
4 + frequency), inserts one `page_keywords` row per keyword carrying the
per-page frequency, marks the queue entry completed, and returns `True`.
In the running program these mutations are rolled back: `process_ip`
returns on line 283, before the unreachable `conn.commit()` on line 303,
and closing the connection discards the open transaction. -/
theorem process_ip_tx_success_effects :
    ((process_ip_tx (fun _ => 77) writerState "1.2.3.4" 9
        (some writerProbe)).1.hosts.map
      (fun h => (h.ip_address, h.is_active, h.title, h.last_crawled)))
      = [("1.2.3.4", true, some "srv", 9)] ∧
    ((process_ip_tx (fun _ => 77) writerState "1.2.3.4" 9
        (some writerProbe)).1.pages.map (fun p => (p.host_id, p.url)))
      = [(1, "http://1.2.3.4")] ∧
    ((process_ip_tx (fun _ => 77) writerState "1.2.3.4" 9
        (some writerProbe)).1.keywords.map
      (fun k => (k.keyword, k.total_occurrences)))
      = [("server", 5), ("nginx", 1)] ∧
    (process_ip_tx (fun _ => 77) writerState "1.2.3.4" 9
        (some writerProbe)).1.page_keywords
      = [⟨1, 1, 5⟩, ⟨1, 2, 2⟩] ∧
    statusOf (process_ip_tx (fun _ => 77) writerState "1.2.3.4" 9
        (some writerProbe)).1.crawl_queue "1.2.3.4" = some "completed" ∧
    (process_ip_tx (fun _ => 77) writerState "1.2.3.4" 9
        (some writerProbe)).2 = true := by decide

/-- Claim C5, evaluated at a concrete input: the statement sequence of
`process_ip`'s failure branch re-inserts the host row with
`is_active = 0`, every metadata column cleared to NULL and a fresh
`last_crawled`, marks the queue entry failed, and returns `False` (the
probe failure is recorded, not raised).  As for C2, in the running
program the transaction is rolled back: the `return` on line 301 precedes
the unreachable `conn.commit()` on line 303. -/
theorem process_ip_tx_failure_effects :
    ((process_ip_tx (fun _ => 77) failState "4.4.4.4" 9 none).1.hosts.map
      (fun h => (h.ip_address, h.is_active, h.last_crawled)))
      = [("4.4.4.4", false, 9)] ∧
    ((process_ip_tx (fun _ => 77) failState "4.4.4.4" 9 none).1.hosts.map
      (fun h => (h.title, h.description, h.status_code)))
      = [(none, none, none)] ∧
    ((process_ip_tx (fun _ => 77) failState "4.4.4.4" 9 none).1.hosts.map
      (fun h => (h.server_info, h.content_type)))
      = [(none, none)] ∧
    statusOf (process_ip_tx (fun _ => 77) failState "4.4.4.4" 9
        none).1.crawl_queue "4.4.4.4" = some "failed" ∧
    (process_ip_tx (fun _ => 77) failState "4.4.4.4" 9 none).2 = false := by
  decide

/-! ## The `LIKE` matcher (claim C10) -/

theorem likeMatchAux_congr : ∀ (n f₁ f₂ : Nat) (ps s : List Char),
    ps.length + s.length ≤ n → n < f₁ → n < f₂ →
    likeMatchAux f₁ ps s = likeMatchAux f₂ ps s := by
  intro n
  induction n with
  | zero =>
    intro f₁ f₂ ps s hlen h1 h2
    cases f₁ with
    | zero => omega
    | succ a =>
      cases f₂ with
      | zero => omega
      | succ b =>
        have hps : ps = [] := by
          cases ps with
          | nil => rfl
          | cons _ _ => simp [List.length_cons] at hlen
        have hs : s = [] := by
          cases s with
          | nil => rfl
          | cons _ _ => subst hps; simp [List.length_cons] at hlen
        subst hps
        subst hs
        rfl
  | succ n ih =>
    intro f₁ f₂ ps s hlen h1 h2
    cases f₁ with
    | zero => omega
    | succ a =>
      cases f₂ with
      | zero => omega
      | succ b =>
        cases ps with
        | nil => rfl
        | cons c ps' =>
          simp only [likeMatchAux]
          by_cases hc : c = '%'
          · rw [if_pos hc, if_pos hc]
            have hl : ps'.length + s.length ≤ n := by
              simp [List.length_cons] at hlen; omega
            have e1 := ih a b ps' s hl (by omega) (by omega)
            cases s with
            | nil => rw [e1]
            | cons d s' =>
              have hl2 : (c :: ps').length + s'.length ≤ n := by
                simp [List.length_cons] at hlen ⊢; omega
              have e2 := ih a b (c :: ps') s' hl2 (by omega) (by omega)
              dsimp only
              rw [e1, e2]
          · rw [if_neg hc, if_neg hc]
            cases s with
            | nil => rfl
            | cons d s' =>
              have hl : ps'.length + s'.length ≤ n := by
                simp [List.length_cons] at hlen; omega
              dsimp only
              by_cases hu : c = '_'
              · rw [if_pos hu, if_pos hu]
                exact ih a b ps' s' hl (by omega) (by omega)
              · rw [if_neg hu, if_neg hu]
                rw [ih a b ps' s' hl (by omega) (by omega)]

theorem likeMatch_fuel (fuel : Nat) (ps s : List Char)
    (h : ps.length + s.length < fuel) :
    likeMatchAux fuel ps s = likeMatch ps s :=
  likeMatchAux_congr (ps.length + s.length) fuel (ps.length + s.length + 1)
    ps s (le_refl _) h (by omega)

theorem likeMatchAux_succ (fuel : Nat) (ps s : List Char) :
    likeMatchAux (fuel + 1) ps s =
      (match ps with
       | [] => s.isEmpty
       | c :: ps' =>
         if c = '%' then
           likeMatchAux fuel ps' s ||
             (match s with
              | [] => false
              | _ :: s' => likeMatchAux fuel (c :: ps') s')
         else
           match s with
           | [] => false
           | d :: s' =>
             if c = '_' then likeMatchAux fuel ps' s'
             else c.toLower == d.toLower && likeMatchAux fuel ps' s') := rfl

theorem likeMatch_percent (ps s : List Char) :
    likeMatch ('%' :: ps) s =
      (likeMatch ps s ||
        (match s with
         | [] => false
         | _ :: s' => likeMatch ('%' :: ps) s')) := by
  show likeMatchAux (('%' :: ps).length + s.length + 1) ('%' :: ps) s = _
  rw [likeMatchAux_succ]
  dsimp only
  rw [if_pos rfl]
  congr 1
  · refine likeMatch_fuel _ ps s ?_
    simp only [List.length_cons]
    omega
  · cases s with
    | nil => rfl
    | cons d s' =>
      dsimp only
      refine likeMatch_fuel _ ('%' :: ps) s' ?_
      simp only [List.length_cons]
      omega

theorem likeMatch_char_nil (c : Char) (ps : List Char) (hc : c ≠ '%') :
    likeMatch (c :: ps) [] = false := by
  show likeMatchAux ((c :: ps).length + 1) (c :: ps) [] = _
  rw [likeMatchAux_succ]
  dsimp only
  rw [if_neg hc]

theorem likeMatch_char_cons (c : Char) (ps : List Char) (d : Char)
    (s' : List Char) (hc : c ≠ '%') (hu : c ≠ '_') :
    likeMatch (c :: ps) (d :: s')
      = (c.toLower == d.toLower && likeMatch ps s') := by
  show likeMatchAux ((c :: ps).length + (d :: s').length + 1) (c :: ps) (d :: s') = _
  rw [likeMatchAux_succ]
  dsimp only
  rw [if_neg hc, if_neg hu]
  congr 1
  refine likeMatch_fuel _ ps s' ?_
  simp only [List.length_cons]
  omega

theorem likeMatch_all_percent (s : List Char) : likeMatch ['%'] s = true := by
  induction s with
  | nil => rfl
  | cons d s' ih =>
    rw [likeMatch_percent]
    simp [ih]

theorem likeMatch_needle_percent : ∀ (needle s : List Char),
    (∀ c ∈ needle, c ≠ '%' ∧ c ≠ '_') →
    (likeMatch (needle ++ ['%']) s = true ↔
      List.IsPrefix (needle.map Char.toLower) (s.map Char.toLower)) := by
  intro needle
  induction needle with
  | nil =>
    intro s _
    rw [List.nil_append, likeMatch_all_percent]
    simp [List.nil_prefix]
  | cons c needle' ih =>
    intro s hnw
    have hc := hnw c (List.mem_cons_self c needle')
    cases s with
    | nil =>
      rw [List.cons_append, likeMatch_char_nil c _ hc.1]
      simp
    | cons d s' =>
      rw [List.cons_append, likeMatch_char_cons c _ d s' hc.1 hc.2]
      rw [Bool.and_eq_true, beq_iff_eq]
      rw [List.map_cons, List.map_cons, List.cons_prefix_cons]
      have hih := ih s' (fun x hx => hnw x (List.mem_cons_of_mem c hx))
      constructor
      · rintro ⟨h1, h2⟩
        exact ⟨h1, hih.mp h2⟩
      · rintro ⟨h1, h2⟩
        exact ⟨h1, hih.mpr h2⟩

theorem likeMatch_lead_percent (ps : List Char) : ∀ s : List Char,
    (likeMatch ('%' :: ps) s = true ↔
      ∃ n, likeMatch ps (s.drop n) = true) := by
  intro s
  induction s with
  | nil =>
    rw [likeMatch_percent]
    constructor
    · intro h
      exact ⟨0, by simpa using h⟩
    · rintro ⟨n, hn⟩
      rw [List.drop_nil] at hn
      simpa using hn
  | cons d s' ih =>
    rw [likeMatch_percent]
    rw [show (match d :: s' with
        | [] => false
        | _ :: s' => likeMatch ('%' :: ps) s') = likeMatch ('%' :: ps) s'
      from rfl]
    rw [Bool.or_eq_true]
    constructor
    · rintro (h | h)
      · exact ⟨0, by simpa using h⟩
      · obtain ⟨n, hn⟩ := ih.mp h
        exact ⟨n + 1, by simpa using hn⟩
    · rintro ⟨n, hn⟩
      cases n with
      | zero => exact Or.inl (by simpa using hn)
      | succ m => exact Or.inr (ih.mpr ⟨m, by simpa using hn⟩)

theorem sqlLike_iff_ciContains (needle : String)
    (hnw : ∀ c ∈ needle.data, c ≠ '%' ∧ c ≠ '_') (s : String) :
    sqlLike ("%" ++ needle ++ "%") (some s) = true ↔
      ciContains (some s) needle := by
  unfold sqlLike ciContains
  have hdata : ("%" ++ needle ++ "%").data
      = '%' :: (needle.data ++ ['%']) := by
    simp [String.data_append]
  rw [hdata]
  rw [likeMatch_lead_percent]
  constructor
  · rintro ⟨n, hn⟩
    have hpre := (likeMatch_needle_percent needle.data (s.data.drop n) hnw).mp hn
    rw [List.map_drop] at hpre
    exact List.infix_iff_prefix_suffix.mpr
      ⟨(s.data.map Char.toLower).drop n, hpre, List.drop_suffix n _⟩
  · intro hinf
    obtain ⟨t, hpre, hsuf⟩ := List.infix_iff_prefix_suffix.mp hinf
    obtain ⟨u, hu⟩ := hsuf
    refine ⟨u.length, ?_⟩
    apply (likeMatch_needle_percent needle.data _ hnw).mpr
    rw [List.map_drop, ← hu, List.drop_left]
    exact hpre

theorem sqlLike_eq_ciContains (needle : String)
    (hnw : ∀ c ∈ needle.data, c ≠ '%' ∧ c ≠ '_') (column : Option String) :
    sqlLike ("%" ++ needle ++ "%") column
      = decide (ciContains column needle) := by
  cases column with
  | none => rfl
  | some st =>
    have hiff := sqlLike_iff_ciContains needle hnw st
    by_cases hb : sqlLike ("%" ++ needle ++ "%") (some st) = true
    · rw [hb]
      symm
      rw [decide_eq_true_eq]
      exact hiff.mp hb
    · have hb' : sqlLike ("%" ++ needle ++ "%") (some st) = false := by
        rw [← Bool.not_eq_true]
        exact hb
      rw [hb']
      symm
      rw [decide_eq_false_iff_not]
      intro hc
      exact hb (hiff.mpr hc)

/-- Counterexample to the case-sensitivity part of claim C10: SQLite's
default `LIKE` is case-insensitive for ASCII, so the active host with
domain `"Example.com"` is returned for the query `"example"`, although
`"example"` is not a case-sensitive substring of `"Example.com"`. -/
theorem search_by_domain_counterexample :
    (search_by_domain domainState "example" 10 0).results.map
      (fun r => r.ip_address) = ["9.9.9.9"] ∧
    (search_by_domain domainState "example" 10 0).total_count = 1 ∧
    ¬ List.IsInfix "example".data "Example.com".data := by decide

/-- Claim C10 (amended): for every wildcard-free query substring,
`search_by_domain` returns exactly the active hosts whose domain contains
the substring case-INSENSITIVELY (ASCII — SQLite's default `LIKE`
semantics), ordered by `last_crawled` descending, paginated by
limit/offset, every returned row carrying the fixed score 1.0, and
`total_count` counting the matching active hosts ignoring pagination. -/
theorem search_by_domain_spec (s : DBState) (d : String) (limit offst : Nat)
    (hnw : ∀ c ∈ d.data, c ≠ '%' ∧ c ≠ '_') :
    (∃ all : List Host,
      all.Perm (s.hosts.filter (fun h =>
        decide (ciContains h.domain d) && h.is_active)) ∧
      all.Pairwise (fun a b => b.last_crawled ≤ a.last_crawled) ∧
      (search_by_domain s d limit offst).results
        = ((all.drop offst).take limit).map (fun h =>
            ⟨h.ip_address, h.domain, h.title, h.description, 1,
             h.response_time, h.last_crawled⟩)) ∧
    (∀ r ∈ (search_by_domain s d limit offst).results, r.score = 1) ∧
    (search_by_domain s d limit offst).total_count
      = (s.hosts.filter (fun h =>
          decide (ciContains h.domain d) && h.is_active)).length := by
  have hfe : s.hosts.filter (fun h =>
      sqlLike ("%" ++ d ++ "%") h.domain && h.is_active)
      = s.hosts.filter (fun h =>
        decide (ciContains h.domain d) && h.is_active) := by
    apply List.filter_congr
    intro h _
    rw [sqlLike_eq_ciContains d hnw]
  refine ⟨⟨sortBy domainLe (s.hosts.filter (fun h =>
      sqlLike ("%" ++ d ++ "%") h.domain && h.is_active)), ?_, ?_, rfl⟩, ?_, ?_⟩
  · rw [hfe]
    exact sortBy_perm _ _
  · refine List.Pairwise.imp ?_ (sortBy_pairwise domainLe ?_ ?_ _)
    · intro a b hab
      unfold domainLe at hab
      rw [Nat.ble_eq] at hab
      exact hab
    · intro x y
      unfold domainLe
      rcases Nat.le_total y.last_crawled x.last_crawled with h | h
      · exact Or.inl (by rw [Nat.ble_eq]; exact h)
      · exact Or.inr (by rw [Nat.ble_eq]; exact h)
    · intro x y z hxy hyz
      unfold domainLe at hxy hyz ⊢
      rw [Nat.ble_eq] at hxy hyz ⊢
      omega
  · intro r hr
    unfold search_by_domain at hr
    obtain ⟨h, _, rfl⟩ := List.mem_map.mp hr
    rfl
  · show (s.hosts.filter (fun h =>
      sqlLike ("%" ++ d ++ "%") h.domain && h.is_active)).length = _
    rw [hfe]

/-! ## Proofs about the keyword search query (claim C3) -/

theorem mem_rowsForHost (s : DBState) (terms : List String) (h : Host)
    (r : JoinRow) :
    r ∈ rowsForHost s terms h ↔
      (h.is_active = true ∧ r.h = h ∧ r.p ∈ s.pages ∧
       r.pk ∈ s.page_keywords ∧ r.k ∈ s.keywords ∧ h.hid = r.p.host_id ∧
       r.p.pid = r.pk.page_id ∧ r.pk.keyword_id = r.k.kid ∧
       r.k.keyword ∈ terms) := by
  obtain ⟨rh, rp, rpk, rk⟩ := r
  unfold rowsForHost
  constructor
  · intro hr
    split at hr
    case isFalse => exact absurd hr (List.not_mem_nil _)
    case isTrue hact =>
      obtain ⟨p, hpmem, hr⟩ := List.mem_flatMap.mp hr
      split at hr
      case isFalse => exact absurd hr (List.not_mem_nil _)
      case isTrue hpid =>
        obtain ⟨pk, hpkmem, hr⟩ := List.mem_flatMap.mp hr
        split at hr
        case isFalse => exact absurd hr (List.not_mem_nil _)
        case isTrue hpkid =>
          obtain ⟨k, hkmem, hr⟩ := List.mem_flatMap.mp hr
          split at hr
          case isFalse => exact absurd hr (List.not_mem_nil _)
          case isTrue hcond =>
            rw [List.mem_singleton] at hr
            cases hr
            rw [Bool.and_eq_true] at hcond
            refine ⟨hact, rfl, hpmem, hpkmem, hkmem,
              beq_iff_eq.mp hpid, beq_iff_eq.mp hpkid,
              beq_iff_eq.mp hcond.1, ?_⟩
            have := hcond.2
            simpa using this
  · rintro ⟨hact, hrh, hpmem, hpkmem, hkmem, c1, c2, c3, c4⟩
    dsimp only at hrh
    subst hrh
    rw [if_pos hact]
    apply List.mem_flatMap.mpr
    refine ⟨rp, hpmem, ?_⟩
    rw [if_pos (beq_iff_eq.mpr c1)]
    apply List.mem_flatMap.mpr
    refine ⟨rpk, hpkmem, ?_⟩
    rw [if_pos (beq_iff_eq.mpr c2)]
    apply List.mem_flatMap.mpr
    refine ⟨rk, hkmem, ?_⟩
    rw [if_pos (by rw [Bool.and_eq_true]
                   exact ⟨beq_iff_eq.mpr c3, by simpa using c4⟩)]
    exact List.mem_singleton.mpr rfl

theorem mem_joinRows (s : DBState) (terms : List String) (r : JoinRow) :
    r ∈ joinRows s terms ↔ r.h ∈ s.hosts ∧ r ∈ rowsForHost s terms r.h := by
  unfold joinRows
  rw [List.mem_flatMap]
  constructor
  · rintro ⟨h', hmem, hr⟩
    have hrh : r.h = h' := ((mem_rowsForHost s terms h' r).mp hr).2.1
    rw [hrh]
    exact ⟨hmem, hr⟩
  · rintro ⟨h1, h2⟩
    exact ⟨r.h, h1, h2⟩

theorem flatMap_eq_nil_of {α β : Type} (l : List α) (F : α → List β)
    (h : ∀ x ∈ l, F x = []) : l.flatMap F = [] := by
  induction l with
  | nil => rfl
  | cons a t ih =>
    rw [List.flatMap_cons, h a (List.mem_cons_self a t), List.nil_append]
    exact ih (fun x hx => h x (List.mem_cons_of_mem a hx))

theorem flatMap_congr_mem {α β : Type} (l : List α) (f g : α → List β)
    (h : ∀ x ∈ l, f x = g x) : l.flatMap f = l.flatMap g := by
  induction l with
  | nil => rfl
  | cons a t ih =>
    rw [List.flatMap_cons, List.flatMap_cons, h a (List.mem_cons_self a t),
      ih (fun x hx => h x (List.mem_cons_of_mem a hx))]

theorem flatMap_single_match {β : Type} (l : List Host) (h : Host)
    (hnd : (l.map (fun x => x.hid)).Nodup) (hm : h ∈ l)
    (F : Host → List β) :
    (l.flatMap (fun h' => if h'.hid == h.hid then F h' else [])) = F h := by
  induction l with
  | nil => cases hm
  | cons a t ih =>
    rw [List.flatMap_cons]
    simp only [List.map_cons, List.nodup_cons] at hnd
    rcases List.mem_cons.mp hm with rfl | hmem
    · rw [if_pos (beq_self_eq_true _)]
      have htail : t.flatMap
          (fun h' => if h'.hid == h.hid then F h' else []) = [] := by
        apply flatMap_eq_nil_of
        intro x hx
        have hne : x.hid ≠ h.hid :=
          fun he => hnd.1 (he ▸ List.mem_map_of_mem _ hx)
        rw [if_neg (by simpa using hne)]
      rw [htail, List.append_nil]
    · have hne : a.hid ≠ h.hid :=
        fun he => hnd.1 (by rw [he]; exact List.mem_map_of_mem _ hmem)
      rw [if_neg (by simpa using hne), List.nil_append]
      exact ih hnd.2 hmem

theorem filter_joinRows (s : DBState) (terms : List String) (h : Host)
    (hh : (s.hosts.map (fun x => x.hid)).Nodup) (hmem : h ∈ s.hosts) :
    (joinRows s terms).filter (fun r => r.h.hid == h.hid)
      = rowsForHost s terms h := by
  unfold joinRows
  rw [List.filter_flatMap]
  have hblock : ∀ h' ∈ s.hosts,
      (rowsForHost s terms h').filter (fun r => r.h.hid == h.hid)
        = if h'.hid == h.hid then rowsForHost s terms h' else [] := by
    intro h' _
    split
    case isTrue heq =>
      apply List.filter_eq_self.mpr
      intro r hr
      have hrh : r.h = h' := ((mem_rowsForHost s terms h' r).mp hr).2.1
      rw [hrh]
      exact heq
    case isFalse hne =>
      apply List.filter_eq_nil_iff.mpr
      intro r hr
      have hrh : r.h = h' := ((mem_rowsForHost s terms h' r).mp hr).2.1
      rw [hrh]
      exact hne
  rw [flatMap_congr_mem s.hosts _ _ hblock]
  exact flatMap_single_match s.hosts h hh hmem _

theorem sum_flatMap_ite {α β : Type} (l : List α) (b : α → Bool)
    (F : α → List β) (g : β → Int) :
    ((l.flatMap (fun x => if b x then F x else [])).map g).sum
      = ((l.filter b).map (fun x => ((F x).map g).sum)).sum := by
  induction l with
  | nil => rfl
  | cons x t ih =>
    rw [List.flatMap_cons, List.map_append, List.sum_append, List.filter_cons]
    by_cases hb : b x
    · rw [if_pos hb, if_pos hb, List.map_cons, List.sum_cons, ih]
    · rw [if_neg hb, if_neg hb, ih]
      simp

theorem hostScore_eq_declScore (s : DBState) (terms : List String) (h : Host)
    (hh : (s.hosts.map (fun x => x.hid)).Nodup) (hmem : h ∈ s.hosts)
    (hact : h.is_active = true) :
    hostScore s terms h = declScore s terms h := by
  unfold hostScore
  rw [filter_joinRows s terms h hh hmem]
  unfold rowsForHost
  rw [if_pos hact, sum_flatMap_ite]
  unfold declScore
  apply congrArg List.sum
  apply List.map_congr_left
  intro p _
  rw [sum_flatMap_ite]
  apply congrArg List.sum
  apply List.map_congr_left
  intro pk _
  rw [sum_flatMap_ite]
  apply congrArg List.sum
  apply List.map_congr_left
  intro k _
  simp

theorem dedup_length_eq {β : Type} [DecidableEq β] (l cand : List β)
    (hnd : cand.Nodup) (hiff : ∀ b, b ∈ l ↔ b ∈ cand) :
    l.dedup.length = cand.length := by
  have h1 : l.toFinset.card = l.dedup.length := List.card_toFinset l
  have h2 : l.toFinset = cand.toFinset := by
    ext b
    rw [List.mem_toFinset, List.mem_toFinset]
    exact hiff b
  rw [← h1, h2, List.toFinset_card_of_nodup hnd]

theorem hostPageCount_eq_declPageCount (s : DBState) (terms : List String)
    (h : Host) (hh : (s.hosts.map (fun x => x.hid)).Nodup)
    (hp : (s.pages.map (fun p => p.pid)).Nodup)
    (hmem : h ∈ s.hosts) (hact : h.is_active = true) :
    hostPageCount s terms h = declPageCount s terms h := by
  unfold hostPageCount
  rw [filter_joinRows s terms h hh hmem]
  have hndc : ((s.pages.filter (fun p => h.hid == p.host_id &&
      s.page_keywords.any (fun pk => p.pid == pk.page_id &&
        s.keywords.any (fun k =>
          pk.keyword_id == k.kid && terms.contains k.keyword)))).map
      (fun p => p.pid)).Nodup :=
    ((List.filter_sublist s.pages).map (fun p => p.pid)).nodup hp
  have hiff : ∀ x, x ∈ (rowsForHost s terms h).map (fun r => r.p.pid) ↔
      x ∈ (s.pages.filter (fun p => h.hid == p.host_id &&
        s.page_keywords.any (fun pk => p.pid == pk.page_id &&
          s.keywords.any (fun k =>
            pk.keyword_id == k.kid && terms.contains k.keyword)))).map
        (fun p => p.pid) := by
    intro x
    constructor
    · intro hx
      obtain ⟨r, hr, rfl⟩ := List.mem_map.mp hx
      obtain ⟨_, _, hpm, hpkm, hkm, c1, c2, c3, c4⟩ :=
        (mem_rowsForHost s terms h r).mp hr
      apply List.mem_map_of_mem
      rw [List.mem_filter]
      refine ⟨hpm, ?_⟩
      rw [Bool.and_eq_true]
      refine ⟨beq_iff_eq.mpr c1, ?_⟩
      apply List.any_eq_true.mpr
      refine ⟨r.pk, hpkm, ?_⟩
      rw [Bool.and_eq_true]
      refine ⟨beq_iff_eq.mpr c2, ?_⟩
      apply List.any_eq_true.mpr
      refine ⟨r.k, hkm, ?_⟩
      rw [Bool.and_eq_true]
      exact ⟨beq_iff_eq.mpr c3, by simpa using c4⟩
    · intro hx
      obtain ⟨p, hpf, rfl⟩ := List.mem_map.mp hx
      rw [List.mem_filter] at hpf
      obtain ⟨hpm, hcond⟩ := hpf
      rw [Bool.and_eq_true] at hcond
      obtain ⟨pk, hpkm, hpkc⟩ := List.any_eq_true.mp hcond.2
      rw [Bool.and_eq_true] at hpkc
      obtain ⟨k, hkm, hkc⟩ := List.any_eq_true.mp hpkc.2
      rw [Bool.and_eq_true] at hkc
      have hrow : (⟨h, p, pk, k⟩ : JoinRow) ∈ rowsForHost s terms h :=
        (mem_rowsForHost s terms h ⟨h, p, pk, k⟩).mpr
          ⟨hact, rfl, hpm, hpkm, hkm, beq_iff_eq.mp hcond.1,
           beq_iff_eq.mp hpkc.1, beq_iff_eq.mp hkc.1, by simpa using hkc.2⟩
      exact List.mem_map_of_mem _ hrow
  rw [dedup_length_eq _ _ hndc hiff, List.length_map]
  rfl

theorem declMatch_iff_rows (s : DBState) (terms : List String) (h : Host)
    (hact : h.is_active = true) :
    declMatch s terms h ↔ ∃ r, r ∈ rowsForHost s terms h := by
  constructor
  · rintro ⟨p, hp, pk, hpk, k, hk, c1, c2, c3, c4⟩
    exact ⟨⟨h, p, pk, k⟩, (mem_rowsForHost s terms h ⟨h, p, pk, k⟩).mpr
      ⟨hact, rfl, hp, hpk, hk, c1, c2, c3, c4⟩⟩
  · rintro ⟨r, hr⟩
    obtain ⟨_, _, hpm, hpkm, hkm, c1, c2, c3, c4⟩ :=
      (mem_rowsForHost s terms h r).mp hr
    exact ⟨r.p, hpm, r.pk, hpkm, r.k, hkm, c1, c2, c3, c4⟩

theorem searchGroups_eq (s : DBState) (terms : List String)
    (hh : (s.hosts.map (fun x => x.hid)).Nodup)
    (hp : (s.pages.map (fun p => p.pid)).Nodup) :
    searchGroups s terms = (s.hosts.filter (fun h =>
      h.is_active && decide (declMatch s terms h))).map
      (fun h => ⟨h.ip_address, h.domain, h.title, h.description,
        h.response_time, h.last_crawled,
        declScore s terms h, declPageCount s terms h⟩) := by
  unfold searchGroups
  have hpred : ∀ h ∈ s.hosts,
      ((joinRows s terms).any (fun r => r.h.hid == h.hid))
        = (h.is_active && decide (declMatch s terms h)) := by
    intro h hmem
    rw [Bool.eq_iff_iff, List.any_eq_true, Bool.and_eq_true,
      decide_eq_true_eq]
    constructor
    · rintro ⟨r, hrj, hrb⟩
      obtain ⟨hhosts, hrows⟩ := (mem_joinRows s terms r).mp hrj
      have hract : r.h.is_active = true :=
        ((mem_rowsForHost s terms r.h r).mp hrows).1
      have hreq : r.h = h := List.inj_on_of_nodup_map hh hhosts hmem
        (beq_iff_eq.mp hrb)
      rw [hreq] at hract hrows
      exact ⟨hract, (declMatch_iff_rows s terms h hract).mpr ⟨r, hrows⟩⟩
    · rintro ⟨hact, hdm⟩
      obtain ⟨r, hr⟩ := (declMatch_iff_rows s terms h hact).mp hdm
      have hrh : r.h = h := ((mem_rowsForHost s terms h r).mp hr).2.1
      refine ⟨r, (mem_joinRows s terms r).mpr ⟨?_, ?_⟩, ?_⟩
      · rw [hrh]; exact hmem
      · rw [hrh]; exact hr
      · rw [hrh]; exact beq_self_eq_true _
  rw [List.filter_congr hpred]
  apply List.map_congr_left
  intro h hmemf
  rw [List.mem_filter, Bool.and_eq_true] at hmemf
  obtain ⟨hmem, hact, _⟩ := hmemf
  rw [hostScore_eq_declScore s terms h hh hmem hact,
    hostPageCount_eq_declPageCount s terms h hh hp hmem hact]

theorem joinRows_hid_count (s : DBState) (terms : List String)
    (hh : (s.hosts.map (fun x => x.hid)).Nodup) :
    ((joinRows s terms).map (fun r => r.h.hid)).dedup.length
      = (s.hosts.filter (fun h =>
          h.is_active && decide (declMatch s terms h))).length := by
  have hndc : ((s.hosts.filter (fun h =>
      h.is_active && decide (declMatch s terms h))).map
      (fun h => h.hid)).Nodup :=
    ((List.filter_sublist s.hosts).map (fun h => h.hid)).nodup hh
  have hiff : ∀ x, x ∈ (joinRows s terms).map (fun r => r.h.hid) ↔
      x ∈ (s.hosts.filter (fun h =>
        h.is_active && decide (declMatch s terms h))).map (fun h => h.hid) := by
    intro x
    constructor
    · intro hx
      obtain ⟨r, hrj, rfl⟩ := List.mem_map.mp hx
      obtain ⟨hhosts, hrows⟩ := (mem_joinRows s terms r).mp hrj
      have hract : r.h.is_active = true :=
        ((mem_rowsForHost s terms r.h r).mp hrows).1
      apply List.mem_map_of_mem
      rw [List.mem_filter, Bool.and_eq_true, decide_eq_true_eq]
      exact ⟨hhosts, hract, (declMatch_iff_rows s terms r.h hract).mpr
        ⟨r, hrows⟩⟩
    · intro hx
      obtain ⟨h, hf, rfl⟩ := List.mem_map.mp hx
      rw [List.mem_filter, Bool.and_eq_true, decide_eq_true_eq] at hf
      obtain ⟨hmem, hact, hdm⟩ := hf
      obtain ⟨r, hr⟩ := (declMatch_iff_rows s terms h hact).mp hdm
      have hrh : r.h = h := ((mem_rowsForHost s terms h r).mp hr).2.1
      have hrj : r ∈ joinRows s terms :=
        (mem_joinRows s terms r).mpr ⟨by rw [hrh]; exact hmem,
          by rw [hrh]; exact hr⟩
      have : r.h.hid = h.hid := by rw [hrh]
      rw [← this]
      exact List.mem_map_of_mem _ hrj
  rw [dedup_length_eq _ _ hndc hiff, List.length_map]

/-- Claim C3: with at least one surviving query term, `search` returns
only active hosts — one sorted row list `all` per store, a permutation of
the matching active hosts in table order, each row carrying the
declarative score (sum over the host's pages and matching keyword links
of page frequency × the keyword's global `total_occurrences`) and the
distinct matching page count; the rows are ordered by score descending
then page count descending, the returned page is the limit/offset slice,
and `total_count` is the number of distinct matching active hosts
ignoring pagination.  The final conjunct is the spec's concrete example:
equal global occurrences 10, frequency 5 (score 50) ranks above
frequency 2 (score 20).  Hypotheses: host and page ids are unique
(primary keys), and the query parses to at least one term. -/
theorem search_spec (s : DBState) (query : String) (limit offst : Nat)
    (hh : (s.hosts.map (fun x => x.hid)).Nodup)
    (hp : (s.pages.map (fun p => p.pid)).Nodup)
    (hterms : parse_terms query ≠ []) :
    (∃ all : List SearchRow,
      all.Perm ((s.hosts.filter (fun h =>
          h.is_active && decide (declMatch s (parse_terms query) h))).map
        (fun h => ⟨h.ip_address, h.domain, h.title, h.description,
          h.response_time, h.last_crawled,
          declScore s (parse_terms query) h,
          declPageCount s (parse_terms query) h⟩)) ∧
      all.Pairwise (fun a b => b.score < a.score ∨
        (b.score = a.score ∧ b.page_count ≤ a.page_count)) ∧
      (search s query limit offst).results = (all.drop offst).take limit) ∧
    (search s query limit offst).total_count
      = (s.hosts.filter (fun h =>
          h.is_active && decide (declMatch s (parse_terms query) h))).length ∧
    (search serverState "server" 10 0).results.map
      (fun r => (r.ip_address, r.score)) = [("8.8.8.8", 50), ("9.9.9.9", 20)] := by
  have hterms' : (parse_terms query).isEmpty = false := by
    cases hq : parse_terms query with
    | nil => exact absurd hq hterms
    | cons a t => rfl
  have hres : search s query limit offst =
      ⟨((sortBy searchLe (searchGroups s (parse_terms query))).drop
          offst).take limit,
       ((joinRows s (parse_terms query)).map (fun r => r.h.hid)).dedup.length⟩ := by
    unfold search
    rw [hterms']
    simp
  refine ⟨⟨sortBy searchLe (searchGroups s (parse_terms query)),
    ?_, ?_, ?_⟩, ?_, ?_⟩
  · rw [← searchGroups_eq s (parse_terms query) hh hp]
    exact sortBy_perm _ _
  · refine List.Pairwise.imp ?_ (sortBy_pairwise searchLe ?_ ?_ _)
    · intro a b hab
      simpa [searchLe] using hab
    · intro x y
      simp only [searchLe, Bool.or_eq_true, Bool.and_eq_true,
        decide_eq_true_eq]
      omega
    · intro x y z hxy hyz
      simp only [searchLe, Bool.or_eq_true, Bool.and_eq_true,
        decide_eq_true_eq] at hxy hyz ⊢
      omega
  · rw [hres]
  · rw [hres]
    exact joinRows_hid_count s (parse_terms query) hh
  · decide

/-- Witness for C3 on the spec's concrete two-host store: the declarative
total count and the 50-over-20 ranking. -/
theorem search_spec_witness :
    (search serverState "server" 10 0).total_count
      = (serverState.hosts.filter (fun h =>
          h.is_active &&
            decide (declMatch serverState (parse_terms "server") h))).length ∧
    (search serverState "server" 10 0).results.map
      (fun r => (r.ip_address, r.score)) = [("8.8.8.8", 50), ("9.9.9.9", 20)] :=
  ⟨(search_spec serverState "server" 10 0 (by decide) (by decide)
      (by decide)).2.1,
   (search_spec serverState "server" 10 0 (by decide) (by decide)
      (by decide)).2.2⟩

/-- Witness for C10 on a concrete store: score 1.0 on every row and the
un-paginated total for the query `"example"`. -/
theorem search_by_domain_spec_witness :
    (∀ r ∈ (search_by_domain domainState "example" 10 0).results,
      r.score = 1) ∧
    (search_by_domain domainState "example" 10 0).total_count
      = (domainState.hosts.filter (fun h =>
          decide (ciContains h.domain "example") && h.is_active)).length :=
  ⟨(search_by_domain_spec domainState "example" 10 0 (by decide)).2.1,
   (search_by_domain_spec domainState "example" 10 0 (by decide)).2.2⟩

end WebCrawler
